import Mathlib

/-!
A verification development for the JSON-Schema-to-GBNF compiler of
`common/json-schema-to-grammar.cpp`.

The C++ source is shallowly embedded: `nlohmann::ordered_json` becomes the
inductive `JVal` (objects keep insertion order), `std::map<std::string,
std::string>` (the rule table `_rules`) becomes a key-sorted association
list carrying its sortedness invariant, and the recursive converter is
embedded as a fuel-indexed step function (`step`), so that every
definition is executable and kernel-reducible.  General recursion that the
C++ performs through the call stack is paid for with an explicit fuel
argument; `none` marks fuel exhaustion and never occurs in the concrete
runs used below.  Machine `int` is modelled as `Int` with the sentinel
`intMax = 2^31 - 1` exactly as the source uses `std::numeric_limits
<int>::max()`.  `std::string::front/back` are modelled as `Option Char`
(out-of-range access yields `none`).
-/

/-- Model of `nlohmann::ordered_json`: objects preserve insertion order. -/
inductive JVal where
  | null : JVal
  | bool (b : Bool) : JVal
  | num (n : Int) : JVal
  | str (s : String) : JVal
  | arr (xs : List JVal) : JVal
  | obj (kvs : List (String × JVal)) : JVal

/-- First-match association-list lookup (used for JSON objects and for the
unordered maps of the converter, where only membership/lookup matter). -/
def lookupA {α : Type} : List (String × α) → String → Option α
  | [], _ => none
  | (k', v) :: t, k => if k = k' then some v else lookupA t k

/-- Insert-or-replace for an unordered association list
(`std::unordered_map` assignment). -/
def setA {α : Type} : List (String × α) → String → α → List (String × α)
  | [], k, v => [(k, v)]
  | (k', v') :: t, k, v => if k = k' then (k, v) :: t else (k', v') :: setA t k v

/-- `json::contains`: true only on objects having the key. -/
def JVal.contains (j : JVal) (k : String) : Bool :=
  match j with
  | .obj kvs => (lookupA kvs k).isSome
  | _ => false

/-- `json::operator[]` on objects, guarded by `contains` at every C++ call
site; missing keys give `null`. -/
def JVal.get (j : JVal) (k : String) : JVal :=
  match j with
  | .obj kvs => (lookupA kvs k).getD .null
  | _ => .null

/-- `json::empty()`: true for `null` and for empty arrays/objects
(`nlohmann` returns `false` on other primitives). -/
def JVal.isEmptyJ (j : JVal) : Bool :=
  match j with
  | .null => true
  | .arr xs => xs.isEmpty
  | .obj kvs => kvs.isEmpty
  | _ => false

/-- `j == true` for `nlohmann::json` (type and value must agree). -/
def JVal.isTrueJ (j : JVal) : Bool :=
  match j with
  | .bool b => b
  | _ => false

/-- `j == "s"` for `nlohmann::json`. -/
def JVal.isStr (j : JVal) (s : String) : Bool :=
  match j with
  | .str x => x = s
  | _ => false

/-- `json::get<std::string>` where the C++ call sites guarantee a string;
non-strings give `""`. -/
def JVal.asString (j : JVal) : String :=
  match j with
  | .str s => s
  | _ => ""

/-- `json::get<int>` where the C++ call sites guarantee a number. -/
def JVal.asInt (j : JVal) : Int :=
  match j with
  | .num n => n
  | _ => 0

/-- `join(begin, end, separator)` from the source: first element, then
`separator` before each further element. -/
def joinSep : List String → String → String
  | [], _ => ""
  | x :: xs, sep => xs.foldl (fun acc y => acc ++ sep ++ y) x

/-- `repeat(str, n)`: concatenate `str` `n` times. -/
def repeatStr (s : String) : Nat → String
  | 0 => ""
  | n + 1 => s ++ repeatStr s n

/-- Decimal digit characters of `n`, most significant first; the fuel is
always called with at least the number of digits (`n + 1` suffices). -/
def natToChars : Nat → Nat → List Char
  | 0, _ => []
  | f + 1, n =>
    if n < 10 then [Char.ofNat (48 + n)]
    else natToChars f (n / 10) ++ [Char.ofNat (48 + n % 10)]

/-- `std::to_string` on a non-negative `int`. -/
def natToString (n : Nat) : String :=
  String.mk (natToChars (n + 1) n)

/-- `std::to_string` on `int` (the embedding only ever needs it for
completeness of `dump`). -/
def intToString (i : Int) : String :=
  if i < 0 then "-" ++ natToString i.natAbs else natToString i.toNat

/-- Split a character list at every occurrence of `c`; like the source's
`split(str, delimiter)` for the one-character delimiters it is used with
(`"/"`, `","`): the final (possibly empty) token is always produced. -/
def splitChars (c : Char) : List Char → List (List Char)
  | [] => [[]]
  | x :: xs =>
    let r := splitChars c xs
    if x = c then [] :: r
    else
      match r with
      | [] => [[x]]
      | t :: ts => (x :: t) :: ts

/-- `split(str, delim)` for a one-character delimiter. -/
def splitOnCharS (s : String) (c : Char) : List String :=
  (splitChars c s.data).map String.mk

/-- `ref.substr(ref.find_last_of(slash) + 1)`: the suffix after the last
`/` (the whole string when there is no `/`). -/
def trailingName (s : String) : String :=
  String.mk ((s.data.reverse.takeWhile (fun c => c != '/')).reverse)

/-- `ref.substr(0, ref.find(hash))`: the prefix before the first `#`
(the whole string when there is no `#`, matching `substr(0, npos)`). -/
def upToHash (s : String) : String :=
  String.mk (s.data.takeWhile (fun c => c != '#'))

/-- `ref.substr(ref.find(hash) + 1)` at call sites where `#` is present. -/
def afterHash (s : String) : String :=
  String.mk ((s.data.dropWhile (fun c => c != '#')).drop 1)

/-- Whether the string contains the character. -/
def strContainsChar (s : String) (c : Char) : Bool :=
  s.data.contains c

/-- `s.find(pre) == 0`, i.e. `pre` is a prefix of `s`. -/
def strStarts (s pre : String) : Bool :=
  pre.data.isPrefixOf s.data

/-- `std::string::front`, total: `none` on the empty string. -/
def strFront (s : String) : Option Char :=
  s.data.head?

/-- `std::string::back`, total: `none` on the empty string. -/
def strBack (s : String) : Option Char :=
  s.data.getLast?

/-- The character class `[a-zA-Z0-9-]` of `INVALID_RULE_CHARS_RE`'s
complement. -/
def isRuleChar (c : Char) : Bool :=
  c.isAlphanum || c = '-'

/-- One pass of `regex_replace(name, INVALID_RULE_CHARS_RE, "-")`: each
maximal run of characters outside `[a-zA-Z0-9-]` becomes a single `-`.
The boolean records whether the previous character was part of such a
run. -/
def sanitizeGo : Bool → List Char → List Char
  | _, [] => []
  | prevBad, c :: rest =>
    if isRuleChar c then c :: sanitizeGo false rest
    else if prevBad then sanitizeGo true rest
    else '-' :: sanitizeGo true rest

/-- `regex_replace(name, INVALID_RULE_CHARS_RE, "-")`. -/
def sanitizeName (s : String) : String :=
  String.mk (sanitizeGo false s.data)

/-- `GRAMMAR_LITERAL_ESCAPES` applied through `GRAMMAR_LITERAL_ESCAPE_RE`
(the class `[\r\n"]`), one character at a time. -/
def literalEscapeChar (c : Char) : List Char :=
  if c = '\r' then ['\\', 'r']
  else if c = '\n' then ['\\', 'n']
  else if c = '"' then ['\\', '"']
  else [c]

/-- `format_literal(literal)`: escape and wrap in double quotes. -/
def formatLiteral (lit : String) : String :=
  "\"" ++ String.mk (lit.data.foldr (fun c acc => literalEscapeChar c ++ acc) []) ++ "\""

/-- JSON string escaping for `json::dump` (the characters the embedding
ever meets; other characters pass through unchanged). -/
def dumpEscapeChar (c : Char) : List Char :=
  if c = '"' then ['\\', '"']
  else if c = '\\' then ['\\', '\\']
  else if c = '\n' then ['\\', 'n']
  else if c = '\r' then ['\\', 'r']
  else if c = '\t' then ['\\', 't']
  else [c]

/-- `json::dump()` (compact form, no spaces), fuelled for the nested
recursion through arrays and objects. -/
def dumpJ : Nat → JVal → String
  | 0, _ => ""
  | _ + 1, .null => "null"
  | _ + 1, .bool b => if b then "true" else "false"
  | _ + 1, .num n => intToString n
  | _ + 1, .str s =>
    "\"" ++ String.mk (s.data.foldr (fun c acc => dumpEscapeChar c ++ acc) []) ++ "\""
  | f + 1, .arr xs =>
    "[" ++ joinSep (xs.map (fun x => dumpJ f x)) "," ++ "]"
  | f + 1, .obj kvs =>
    "\x7b" ++
      joinSep (kvs.map (fun kv => "\"" ++ kv.1 ++ "\":" ++ dumpJ f kv.2)) "," ++ "\x7d"

/-- `json::dump()` with fuel large enough for any value the development
evaluates. -/
def dump (j : JVal) : String := dumpJ 64 j

/-- `std::numeric_limits<int>::max()`. -/
def intMax : Int := 2147483647

/-- The recursive lambda `opt_repetitions(up_to_n, prefix_with_sep)` of
`build_repetition`; `up_to_n` is a count, hence `Nat`. -/
def optRepetitions (itemRule separatorRule : String) : Nat → Bool → String
  | 0, _ => ""
  | 1, prefixWithSep =>
    let content :=
      if prefixWithSep && !separatorRule.isEmpty then separatorRule ++ " " ++ itemRule
      else itemRule
    "(" ++ content ++ ")?"
  | n + 2, prefixWithSep =>
    let content :=
      if prefixWithSep && !separatorRule.isEmpty then separatorRule ++ " " ++ itemRule
      else itemRule
    if !separatorRule.isEmpty && !prefixWithSep then
      "(" ++ content ++ " " ++ optRepetitions itemRule separatorRule (n + 1) true ++ ")?"
    else
      (repeatStr ("(" ++ content ++ " ") (n + 2)).dropRight 1 ++ repeatStr ")?" (n + 2)

/-- `build_repetition(item_rule, min_items, max_items, separator_rule,
item_rule_is_literal)`. -/
def buildRepetition (itemRule : String) (minItems maxItems : Int)
    (separatorRule : String := "") (itemRuleIsLiteral : Bool := false) : String :=
  if separatorRule.isEmpty && minItems = 0 && maxItems = 1 then
    itemRule ++ "?"
  else if separatorRule.isEmpty && minItems = 1 && maxItems = intMax then
    itemRule ++ "+"
  else
    let result :=
      if minItems > 0 then
        if itemRuleIsLiteral && separatorRule.isEmpty then
          "\"" ++ repeatStr ((itemRule.drop 1).dropRight 1) minItems.toNat ++ "\""
        else
          joinSep (List.replicate minItems.toNat itemRule)
            (if separatorRule.isEmpty then " " else " " ++ separatorRule ++ " ")
      else ""
    let result := if minItems > 0 && maxItems ≠ minItems then result ++ " " else result
    if maxItems ≠ intMax then
      result ++ optRepetitions itemRule separatorRule (maxItems - minItems).toNat (minItems > 0)
    else
      let itemOperator :=
        "(" ++ (if separatorRule.isEmpty then "" else separatorRule ++ " ") ++ itemRule ++ ")"
      if minItems = 0 && !separatorRule.isEmpty then
        "(" ++ itemRule ++ " " ++ itemOperator ++ "*)?"
      else
        result ++ itemOperator ++ "*"

/-- `SPACE_RULE`. -/
def SPACE_RULE : String := "\" \"?"

/-- `BuiltinRule`: a grammar fragment plus its rule dependencies. -/
structure BuiltinRule where
  content : String
  deps : List String

/-- `_up_to_15_digits = build_repetition("[0-9]", 0, 15)`. -/
def upTo15Digits : String := buildRepetition "[0-9]" 0 15

/-- `PRIMITIVE_RULES` (an `unordered_map` used only for lookup and for
building the reserved-name set). -/
def PRIMITIVE_RULES : List (String × BuiltinRule) :=
  [ ("boolean", ⟨"(\"true\" | \"false\") space", []⟩),
    ("decimal-part", ⟨"[0-9] " ++ upTo15Digits, []⟩),
    ("integral-part", ⟨"[0-9] | [1-9] " ++ upTo15Digits, []⟩),
    ("number", ⟨"(\"-\"? integral-part) (\".\" decimal-part)? ([eE] [-+]? integral-part)? space",
      ["integral-part", "decimal-part"]⟩),
    ("integer", ⟨"(\"-\"? integral-part) space", ["integral-part"]⟩),
    ("value", ⟨"object | array | string | number | boolean | null",
      ["object", "array", "string", "number", "boolean", "null"]⟩),
    ("object", ⟨"\"\x7b\" space ( string \":\" space value (\",\" space string \":\" space value)* )? \"\x7d\" space",
      ["string", "value"]⟩),
    ("array", ⟨"\"[\" space ( value (\",\" space value)* )? \"]\" space", ["value"]⟩),
    ("uuid", ⟨"\"\\\"\" [0-9a-fA-F][0-9a-fA-F][0-9a-fA-F][0-9a-fA-F][0-9a-fA-F][0-9a-fA-F][0-9a-fA-F][0-9a-fA-F] " ++
      "\"-\" [0-9a-fA-F][0-9a-fA-F][0-9a-fA-F][0-9a-fA-F] " ++
      "\"-\" [0-9a-fA-F][0-9a-fA-F][0-9a-fA-F][0-9a-fA-F] " ++
      "\"-\" [0-9a-fA-F][0-9a-fA-F][0-9a-fA-F][0-9a-fA-F] " ++
      "\"-\" [0-9a-fA-F][0-9a-fA-F][0-9a-fA-F][0-9a-fA-F][0-9a-fA-F][0-9a-fA-F][0-9a-fA-F][0-9a-fA-F][0-9a-fA-F][0-9a-fA-F][0-9a-fA-F][0-9a-fA-F] \"\\\"\" space",
      []⟩),
    ("char", ⟨"[^\"\\\\] | \"\\\\\" ([\"\\\\/bfnrt] | \"u\" [0-9a-fA-F] [0-9a-fA-F] [0-9a-fA-F] [0-9a-fA-F])", []⟩),
    ("string", ⟨"\"\\\"\" char* \"\\\"\" space", ["char"]⟩),
    ("null", ⟨"\"null\" space", []⟩) ]

/-- `STRING_FORMAT_RULES`. -/
def STRING_FORMAT_RULES : List (String × BuiltinRule) :=
  [ ("date", ⟨"[0-9] [0-9] [0-9] [0-9] \"-\" ( \"0\" [1-9] | \"1\" [0-2] ) \"-\" ( \"0\" [1-9] | [1-2] [0-9] | \"3\" [0-1] )", []⟩),
    ("time", ⟨"([01] [0-9] | \"2\" [0-3]) \":\" [0-5] [0-9] \":\" [0-5] [0-9] ( \".\" [0-9] [0-9] [0-9] )? ( \"Z\" | ( \"+\" | \"-\" ) ( [01] [0-9] | \"2\" [0-3] ) \":\" [0-5] [0-9] )", []⟩),
    ("date-time", ⟨"date \"T\" time", ["date", "time"]⟩),
    ("date-string", ⟨"\"\\\"\" date \"\\\"\" space", ["date"]⟩),
    ("time-string", ⟨"\"\\\"\" time \"\\\"\" space", ["time"]⟩),
    ("date-time-string", ⟨"\"\\\"\" date-time \"\\\"\" space", ["date-time"]⟩) ]

/-- `is_reserved_name`: `root` plus all catalog keys. -/
def isReservedName (name : String) : Bool :=
  name = "root" ||
    (PRIMITIVE_RULES.map Prod.fst).contains name ||
    (STRING_FORMAT_RULES.map Prod.fst).contains name

/-- Catalog lookup as in `_add_primitive`: primitives first, then string
formats. -/
def lookupBuiltin (dep : String) : Option BuiltinRule :=
  match lookupA PRIMITIVE_RULES dep with
  | some r => some r
  | none => lookupA STRING_FORMAT_RULES dep

/-- Lexicographic comparison of character lists by code point, the order
of `std::string::operator<` (byte order and code-point order agree on the
ASCII rule names the converter produces). -/
def strLtChars : List Char → List Char → Bool
  | [], [] => false
  | [], _ :: _ => true
  | _ :: _, [] => false
  | a :: as, b :: bs =>
    if a.toNat < b.toNat then true
    else if b.toNat < a.toNat then false
    else strLtChars as bs

/-- `std::string::operator<` (as a boolean). -/
def strLtB (a b : String) : Bool :=
  strLtChars a.data b.data

/-- `std::string::operator<` (as a proposition). -/
def strLt (a b : String) : Prop :=
  strLtB a b = true

theorem charToNat_inj {a b : Char} (h : a.toNat = b.toNat) : a = b :=
  Char.ext (UInt32.ext h)

theorem strLtChars_trans : ∀ a b c, strLtChars a b = true → strLtChars b c = true →
    strLtChars a c = true := by
  intro a
  induction a with
  | nil =>
    intro b c hab hbc
    cases b with
    | nil => exact absurd hab (by simp [strLtChars])
    | cons y ys =>
      cases c with
      | nil => exact absurd hbc (by simp [strLtChars])
      | cons z zs => simp [strLtChars]
  | cons x xs ih =>
    intro b c hab hbc
    cases b with
    | nil => exact absurd hab (by simp [strLtChars])
    | cons y ys =>
      cases c with
      | nil => exact absurd hbc (by simp [strLtChars])
      | cons z zs =>
        simp only [strLtChars] at hab hbc ⊢
        by_cases hxy : x.toNat < y.toNat
        · by_cases hyz : y.toNat < z.toNat
          · simp [show x.toNat < z.toNat by omega]
          · simp only [if_pos hxy] at hab
            by_cases hzy : z.toNat < y.toNat
            · simp [hyz, hzy] at hbc
            · have : y.toNat = z.toNat := by omega
              simp [show x.toNat < z.toNat by omega]
        · by_cases hyx : y.toNat < x.toNat
          · simp [hxy, hyx] at hab
          · have hxyeq : x.toNat = y.toNat := by omega
            by_cases hyz : y.toNat < z.toNat
            · simp [show x.toNat < z.toNat by omega]
            · by_cases hzy : z.toNat < y.toNat
              · simp [hyz, hzy] at hbc
              · have hyzeq : y.toNat = z.toNat := by omega
                simp only [if_neg hxy, if_neg hyx] at hab
                simp only [if_neg hyz, if_neg hzy] at hbc
                simp only [show ¬ x.toNat < z.toNat by omega,
                  show ¬ z.toNat < x.toNat by omega, if_neg, ite_false]
                exact ih ys zs hab hbc

theorem strLtChars_irrefl : ∀ a, strLtChars a a = false := by
  intro a
  induction a with
  | nil => rfl
  | cons x xs ih => simp [strLtChars, ih]

theorem strLtChars_connex : ∀ a b, a ≠ b →
    strLtChars a b = true ∨ strLtChars b a = true := by
  intro a
  induction a with
  | nil =>
    intro b hne
    cases b with
    | nil => exact absurd rfl hne
    | cons y ys => left; simp [strLtChars]
  | cons x xs ih =>
    intro b hne
    cases b with
    | nil => right; simp [strLtChars]
    | cons y ys =>
      by_cases hxy : x.toNat < y.toNat
      · left; simp [strLtChars, hxy]
      · by_cases hyx : y.toNat < x.toNat
        · right; simp [strLtChars, hyx]
        · have hxyeq : x = y := charToNat_inj (by omega)
          subst hxyeq
          have hne' : xs ≠ ys := fun h => hne (by rw [h])
          rcases ih ys hne' with h | h
          · left; simp [strLtChars, h]
          · right; simp [strLtChars, h]

theorem strLt_trans {a b c : String} (h1 : strLt a b) (h2 : strLt b c) : strLt a c :=
  strLtChars_trans a.data b.data c.data h1 h2

theorem strLt_irrefl (a : String) : ¬ strLt a a := by
  unfold strLt strLtB
  rw [strLtChars_irrefl]
  simp

theorem strLt_ne {a b : String} (h : strLt a b) : a ≠ b := by
  intro he
  subst he
  exact strLt_irrefl a h

theorem strLt_connex {a b : String} (hne : a ≠ b) : strLt a b ∨ strLt b a := by
  have hd : a.data ≠ b.data := fun h => hne (by cases a; cases b; simp_all)
  exact strLtChars_connex a.data b.data hd

/-- Keys strictly increasing: the invariant of `std::map` iteration. -/
def entriesSorted (l : List (String × String)) : Prop :=
  l.Chain' (fun a b => strLt a.1 b.1)

/-- Ordered insert-or-assign, the effect of `_rules[key] = value` on the
`std::map`. -/
def insertEntry : List (String × String) → String → String → List (String × String)
  | [], k, v => [(k, v)]
  | (k', v') :: t, k, v =>
    if k = k' then (k, v) :: t
    else if strLtB k k' then (k, v) :: (k', v') :: t
    else (k', v') :: insertEntry t k v

theorem insertEntry_head_lt {t : List (String × String)} {k k' : String} {v : String}
    (hk : strLt k' k) (hall : ∀ p ∈ t, strLt k' p.1) :
    ∀ p ∈ insertEntry t k v, strLt k' p.1 := by
  induction t with
  | nil => intro p hp; simp only [insertEntry, List.mem_singleton] at hp; subst hp; exact hk
  | cons hd tl ih =>
    intro p hp
    simp only [insertEntry] at hp
    by_cases h1 : k = hd.1
    · simp only [if_pos h1] at hp
      rcases List.mem_cons.mp hp with h | h
      · subst h; exact hk
      · exact hall _ (List.mem_cons_of_mem _ h)
    · simp only [if_neg h1] at hp
      by_cases h2 : strLtB k hd.1
      · simp only [if_pos h2] at hp
        rcases List.mem_cons.mp hp with h | h
        · subst h; exact hk
        · exact hall _ h
      · simp only [if_neg h2] at hp
        rcases List.mem_cons.mp hp with h | h
        · subst h; exact hall _ (List.mem_cons_self _ _)
        · exact ih (fun q hq => hall _ (List.mem_cons_of_mem _ hq)) _ h

instance : IsTrans (String × String) (fun a b => strLt a.1 b.1) :=
  ⟨fun _ _ _ h1 h2 => strLt_trans h1 h2⟩

theorem entriesSorted_cons {p : String × String} {t : List (String × String)} :
    entriesSorted (p :: t) ↔ (∀ q ∈ t, strLt p.1 q.1) ∧ entriesSorted t := by
  unfold entriesSorted
  rw [List.chain'_iff_pairwise, List.pairwise_cons, ← List.chain'_iff_pairwise]

theorem insertEntry_sorted {l : List (String × String)} {k v : String}
    (h : entriesSorted l) : entriesSorted (insertEntry l k v) := by
  induction l with
  | nil => simp [insertEntry, entriesSorted]
  | cons hd tl ih =>
    rcases entriesSorted_cons.mp h with ⟨hhd, htl⟩
    by_cases h1 : k = hd.1
    · simp only [insertEntry, if_pos h1]
      exact entriesSorted_cons.mpr ⟨fun q hq => h1 ▸ hhd q hq, htl⟩
    · by_cases h2 : strLtB k hd.1
      · simp only [insertEntry, if_neg h1, if_pos h2]
        refine entriesSorted_cons.mpr ⟨?_, h⟩
        intro q hq
        rcases List.mem_cons.mp hq with h3 | h3
        · subst h3; exact h2
        · exact strLt_trans h2 (hhd _ h3)
      · have hk : strLt hd.1 k := by
          rcases strLt_connex h1 with h3 | h3
          · exact absurd h3 h2
          · exact h3
        simp only [insertEntry, if_neg h1, if_neg h2]
        exact entriesSorted_cons.mpr ⟨insertEntry_head_lt hk hhd, ih htl⟩

/-- The rule table `_rules : std::map<std::string, std::string>`, with the
sortedness of its iteration order carried as an invariant. -/
structure RuleMap where
  entries : List (String × String)
  ok : entriesSorted entries

/-- `_rules.find(k)` (as an `Option`). -/
def RuleMap.lookup (m : RuleMap) (k : String) : Option String :=
  lookupA m.entries k

/-- `_rules[k] = v`. -/
def RuleMap.set (m : RuleMap) (k v : String) : RuleMap :=
  ⟨insertEntry m.entries k v, insertEntry_sorted m.ok⟩

/-- The mutable state of a `SchemaConverter`: the rule table, the ref
index, the in-progress set and the diagnostics buffers.  `insOrder` is a
ghost field recording the order in which keys were first inserted into the
rule table; no converter operation ever reads it. -/
structure ConvState where
  rules : RuleMap
  insOrder : List String
  refs : List (String × JVal)
  refsBeingResolved : List String
  errors : List String
  warnings : List String

/-- `_rules[k] = v`, also logging first insertions in the ghost field. -/
def ConvState.setRule (st : ConvState) (k v : String) : ConvState :=
  { st with
    rules := st.rules.set k v
    insOrder := if (st.rules.lookup k).isSome then st.insOrder else st.insOrder ++ [k] }

/-- `_errors.push_back(e)`. -/
def ConvState.addError (st : ConvState) (e : String) : ConvState :=
  { st with errors := st.errors ++ [e] }

/-- `_warnings.push_back(w)`. -/
def ConvState.addWarning (st : ConvState) (w : String) : ConvState :=
  { st with warnings := st.warnings ++ [w] }

/-- The loop condition of `_add_rule`, negated: index `i` is usable when
the slot `escName ++ i` is absent or already holds `rule`. -/
def suffixFree (st : ConvState) (escName rule : String) (i : Nat) : Bool :=
  match st.rules.lookup (escName ++ natToString i) with
  | none => true
  | some w => w = rule

/-- The `while` loop of `_add_rule`, searching the first usable suffix;
`st.rules.entries.length + 1` steps always suffice (pigeonhole, proved
below), so the fuel never runs out in the loop's C++ sense. -/
def findSuffixGo (st : ConvState) (escName rule : String) : Nat → Nat → Nat
  | 0, i => i
  | f + 1, i => if suffixFree st escName rule i then i else findSuffixGo st escName rule f (i + 1)

/-- `_add_rule(name, rule)`. -/
def ConvState.addRule (st : ConvState) (name rule : String) : String × ConvState :=
  let escName := sanitizeName name
  match st.rules.lookup escName with
  | none => (escName, st.setRule escName rule)
  | some v =>
    if v = rule then (escName, st.setRule escName rule)
    else
      let i := findSuffixGo st escName rule (st.rules.entries.length + 1) 0
      let key := escName ++ natToString i
      (key, st.setRule key rule)

/-- `PRIMITIVE_RULES.at(k)` at call sites where the key is present. -/
def primAt (k : String) : BuiltinRule :=
  (lookupA PRIMITIVE_RULES k).getD ⟨"", []⟩

/-- `STRING_FORMAT_RULES.at(k)` at call sites where the key is present. -/
def formatAt (k : String) : BuiltinRule :=
  (lookupA STRING_FORMAT_RULES k).getD ⟨"", []⟩

/-- The dependency loop of `_add_primitive`, with the recursive
`_add_primitive(dep, …)` call inlined (its return value is discarded by
the source).  The fuel bounds the total number of processed dependencies;
`64` exceeds what the fixed catalogs can ever demand. -/
def addPrimDeps : Nat → List String → ConvState → ConvState
  | 0, _, st => st
  | _ + 1, [], st => st
  | f + 1, dep :: rest, st =>
    let st' :=
      match lookupBuiltin dep with
      | none => st.addError ("Rule " ++ dep ++ " not known")
      | some depRule =>
        if (st.rules.lookup dep).isSome then st
        else
          let stA := (st.addRule dep depRule.content).2
          addPrimDeps f depRule.deps stA
    addPrimDeps f rest st'

/-- `_add_primitive(name, rule)`. -/
def addPrimitive (name : String) (rule : BuiltinRule) (st : ConvState) : String × ConvState :=
  let (n, st1) := st.addRule name rule.content
  (n, addPrimDeps 64 rule.deps st1)

/-- `to_rule` of `_visit_pattern`: quote literals, leave rules as-is. -/
def toRuleLR (lr : String × Bool) : String :=
  if lr.2 then "\"" ++ lr.1 ++ "\"" else lr.1

/-- `NON_LITERAL_SET`. -/
def isNonLiteral (c : Char) : Bool :=
  ['|', '.', '(', ')', '[', ']', '\x7b', '\x7d', '*', '+', '?'].contains c

/-- `ESCAPED_IN_REGEXPS_BUT_NOT_IN_LITERALS`. -/
def isEscapedInRegexpsOnly (c : Char) : Bool :=
  ['[', ']', '(', ')', '|', '\x7b', '\x7d', '*', '+', '?'].contains c

/-- In-range character access `sub_pattern[i]` (call sites are guarded by
`i < length`). -/
def charAt (cs : List Char) (i : Nat) : Char :=
  cs.getD i (Char.ofNat 0)

/-- The literal-merging `join_seq` of `_visit_pattern`: consecutive
literals are merged, the merged sequence is rendered and joined with
spaces; the result is a rule (not a literal). -/
def joinSeqGo : List (String × Bool) → String → List (String × Bool)
  | [], lit => if lit.isEmpty then [] else [(lit, true)]
  | item :: rest, lit =>
    if item.2 then joinSeqGo rest (lit ++ item.1)
    else (if lit.isEmpty then [] else [(lit, true)]) ++ item :: joinSeqGo rest ""

/-- `join_seq()`. -/
def joinSeq (seq : List (String × Bool)) : String × Bool :=
  (joinSep ((joinSeqGo seq "").map toRuleLR) " ", false)

/-- `seq.back() = x` (no-op on the empty sequence, where the C++ is
undefined). -/
def setBack (seq : List (String × Bool)) (x : String × Bool) : List (String × Bool) :=
  match seq with
  | [] => []
  | _ => seq.dropLast ++ [x]

/-- The literal-collecting inner `while` loop of `_visit_pattern`'s
`transform`; returns the collected literal and the new index. -/
def collectLit (cs : List Char) : Nat → Nat → String → String × Nat
  | 0, i, acc => (acc, i)
  | f + 1, i, acc =>
    if i < cs.length then
      let c := charAt cs i
      if c = '\\' && i < cs.length - 1 then
        let nxt := charAt cs (i + 1)
        if isEscapedInRegexpsOnly nxt then collectLit cs f (i + 2) (acc ++ String.mk [nxt])
        else collectLit cs f (i + 2) (acc ++ String.mk [c, nxt])
      else if c = '"' then collectLit cs f (i + 1) (acc ++ "\\\"")
      else if !isNonLiteral c &&
          (i = cs.length - 1 || acc.isEmpty || charAt cs (i + 1) = '.' ||
            !isNonLiteral (charAt cs (i + 1))) then
        collectLit cs f (i + 1) (acc ++ String.mk [c])
      else (acc, i)
    else (acc, i)

/-- The square-bracket collector of `transform`: collects from index `i`
(just past `[`) up to `]`; returns the class including both brackets, the
index just past `]`, and whether the class was unbalanced. -/
def collectSquare (cs : List Char) : Nat → Nat → String → String × Nat × Bool
  | 0, i, acc => (acc ++ "]", i + 1, true)
  | f + 1, i, acc =>
    if i < cs.length then
      let c := charAt cs i
      if c = ']' then (acc ++ "]", i + 1, false)
      else if c = '\\' then collectSquare cs f (i + 2) (acc ++ String.mk ((cs.drop i).take 2))
      else collectSquare cs f (i + 1) (acc ++ String.mk [c])
    else (acc ++ "]", i + 1, true)

/-- The curly-bracket collector of `transform`; returns the contents
including both braces, the index just past the closing brace, and whether
it was unbalanced. -/
def collectCurly (cs : List Char) : Nat → Nat → String → String × Nat × Bool
  | 0, i, acc => (acc ++ "\x7d", i + 1, true)
  | f + 1, i, acc =>
    if i < cs.length then
      let c := charAt cs i
      if c = '\x7d' then (acc ++ "\x7d", i + 1, false)
      else collectCurly cs f (i + 1) (acc ++ String.mk [c])
    else (acc ++ "\x7d", i + 1, true)

/-- `std::stoi`, as far as the curly-brace parser exercises it: optional
sign, then a non-empty maximal digit prefix; `none` models the
`invalid_argument` exception. -/
def stoiM (s : String) : Option Int :=
  let (neg, ds) :=
    match s.data with
    | '-' :: rest => (true, rest)
    | '+' :: rest => (false, rest)
    | l => (false, l)
  let digits := ds.takeWhile Char.isDigit
  if digits.isEmpty then none
  else
    let v : Nat := digits.foldl (fun acc c => acc * 10 + (c.toNat - 48)) 0
    some (if neg then -(v : Int) else (v : Int))

/-- The recursive lambda `transform` of `_visit_pattern`, defunctionalised
over an explicit index: `start` is the index at the current recursion
level's entry, `i` the cursor, `seq` the item sequence, `subIds` the local
`sub_rule_ids` map.  One unit of fuel is spent per loop iteration or
recursive entry; where the C++ loops forever (a stray `]` or brace) the
model returns `none`. -/
def transformGo (dotall : Bool) (name : String) (cs : List Char) :
    Nat → Nat → Nat → List (String × Bool) → List (String × String) → ConvState →
    Option ((String × Bool) × Nat × List (String × String) × ConvState)
  | 0, _, _, _, _, _ => none
  | f + 1, start, i, seq, subIds, st =>
    if i < cs.length then
      let c := charAt cs i
      if c = '.' then
        let (dotName, st) :=
          st.addRule "dot" (if dotall then "[\\U00000000-\\U0010FFFF]" else "[^\\x0A\\x0D]")
        transformGo dotall name cs f start (i + 1) (seq ++ [(dotName, false)]) subIds st
      else if c = '(' then
        let i := i + 1
        let st :=
          if i < cs.length && charAt cs i = '?' then st.addWarning "Unsupported pattern syntax"
          else st
        match transformGo dotall name cs f i i [] subIds st with
        | none => none
        | some (lr, i', subIds, st) =>
          transformGo dotall name cs f start i' (seq ++ [("(" ++ toRuleLR lr ++ ")", false)]) subIds st
      else if c = ')' then
        let i := i + 1
        let st :=
          if start > 0 && charAt cs (start - 1) != '(' then st.addError "Unbalanced parentheses"
          else st
        some (joinSeq seq, i, subIds, st)
      else if c = '[' then
        let (sq, i', bad) := collectSquare cs (cs.length + 2) (i + 1) (String.mk [c])
        let st := if bad then st.addError "Unbalanced square brackets" else st
        transformGo dotall name cs f start i' (seq ++ [(sq, false)]) subIds st
      else if c = '|' then
        transformGo dotall name cs f start (i + 1) (seq ++ [("|", false)]) subIds st
      else if c = '*' || c = '+' || c = '?' then
        let last := seq.getLastD ("", false)
        transformGo dotall name cs f start (i + 1)
          (setBack seq (toRuleLR last ++ String.mk [c], false)) subIds st
      else if c = '\x7b' then
        let (curly, i', bad) := collectCurly cs (cs.length + 2) (i + 1) (String.mk [c])
        let st := if bad then st.addError "Unbalanced curly brackets" else st
        let inner := (curly.drop 1).dropRight 1
        let nums := splitOnCharS inner ','
        let parsed : Option (Int × Int × ConvState) :=
          match nums with
          | [n0] =>
            match stoiM n0 with
            | none => none
            | some v => some (v, v, st)
          | [n0, n1] =>
            match (if n0.isEmpty then some 0 else stoiM n0) with
            | none => none
            | some mn =>
              match (if n1.isEmpty then some intMax else stoiM n1) with
              | none => none
              | some mx => some (mn, mx, st)
          | _ => some (0, intMax, st.addError "Wrong number of values in curly brackets")
        match parsed with
        | none => some (("", false), i', subIds, st.addError "Invalid number in curly brackets")
        | some (minTimes, maxTimes, st) =>
          let last := seq.getLastD ("", false)
          let sub := last.1
          let subIsLiteral := last.2
          let (sub, subIds, st) :=
            if !subIsLiteral then
              match lookupA subIds sub with
              | some id => (id, subIds, st)
              | none =>
                let subIds' := setA subIds sub ""
                let (rn, st) := st.addRule (name ++ "-" ++ natToString subIds'.length) sub
                (rn, setA subIds' sub rn, st)
            else (sub, subIds, st)
          let newItem :=
            (buildRepetition (if subIsLiteral then "\"" ++ sub ++ "\"" else sub)
              minTimes maxTimes "" subIsLiteral, false)
          transformGo dotall name cs f start i' (setBack seq newItem) subIds st
      else
        let (lit, i') := collectLit cs (2 * cs.length + 2) i ""
        let seq := if lit.isEmpty then seq else seq ++ [(lit, true)]
        transformGo dotall name cs f start i' seq subIds st
    else
      some (joinSeq seq, i, subIds, st)

/-- `_visit_pattern(pattern, name)`.  The anchoring check reads
`pattern.front()` and `pattern.back()`, modelled totally as `Option
Char`. -/
def visitPattern (dotall : Bool) (pattern name : String) (st : ConvState) :
    Option (String × ConvState) :=
  if !(strFront pattern = some '^' ∧ strBack pattern = some '$') then
    some ("", st.addError "Pattern must start with \x27^\x27 and end with \x27$\x27")
  else
    let subPattern := (pattern.data.drop 1).dropLast
    match transformGo dotall name subPattern (4 * subPattern.length + 16) 0 0 [] [] st with
    | none => none
    | some (lr, _, _, st) =>
      some (st.addRule name ("\"\\\"\" " ++ toRuleLR lr ++ " \"\\\"\" space"))

/-- `name + (name.empty() ? "" : "-") + suffix`. -/
def nameDash (name suffix : String) : String :=
  name ++ (if name.isEmpty then "" else "-") ++ suffix

/-- `get_recursive_refs(ks, first_is_optional)` of
`_build_object_rule`. -/
def getRecursiveRefs (name : String) (kvNames : List (String × String)) :
    List String → Bool → ConvState → String × ConvState
  | [], _, st => ("", st)
  | k :: rest, firstIsOptional, st =>
    let kvRuleName := (lookupA kvNames k).getD ""
    let (res, st) :=
      if k = "*" then
        st.addRule (nameDash name "additional-kvs")
          (kvRuleName ++ " ( \",\" space " ++ kvRuleName ++ " )*")
      else if firstIsOptional then
        ("( \",\" space " ++ kvRuleName ++ " )?", st)
      else (kvRuleName, st)
    if rest.isEmpty then (res, st)
    else
      let (sub, st) := getRecursiveRefs name kvNames rest true st
      let (r2, st) := st.addRule (nameDash name (k ++ "-rest")) sub
      (res ++ " " ++ r2, st)

/-- The alternatives loop of `_build_object_rule`: one
`get_recursive_refs(optional_props[i:], false)` per starting index. -/
def objAlternatives (name : String) (kvNames : List (String × String)) :
    List String → ConvState → List String × ConvState
  | [], st => ([], st)
  | k :: rest, st =>
    let (a, st) := getRecursiveRefs name kvNames (k :: rest) false st
    let (as, st) := objAlternatives name kvNames rest st
    (a :: as, st)

/-- The final string assembly of `_build_object_rule`, after the property
and `additionalProperties` visits. -/
def assembleObjectRule (name : String) (kvNames : List (String × String))
    (requiredProps optionalProps : List String) (st : ConvState) : String × ConvState :=
  let rule := "\"\x7b\" space " ++
    joinSep (requiredProps.map (fun k => (lookupA kvNames k).getD "")) " \",\" space "
  if optionalProps.isEmpty then (rule ++ " \"\x7d\" space", st)
  else
    let rule := rule ++ " ("
    let rule := if requiredProps.isEmpty then rule else rule ++ " \",\" space ( "
    let (alts, st) := objAlternatives name kvNames optionalProps st
    let rule := rule ++ joinSep alts " | "
    let rule := if requiredProps.isEmpty then rule else rule ++ " )"
    (rule ++ " )?" ++ " \"\x7d\" space", st)

/-- `required.insert(k)` on the ordered-list model of the
`unordered_set` (only membership is ever read). -/
def insertIfNew (l : List String) (k : String) : List String :=
  if l.contains k then l else l ++ [k]

/-- `add_component` of the `allOf` branch: `$ref` members are chased
through the ref index (`_refs[...]` inserts `null` for unknown keys),
members with `properties` contribute their properties.  Fuelled, since a
cyclic ref chain would loop forever in the source. -/
def addComponent : Nat → JVal → Bool →
    ConvState × List (String × JVal) × List String →
    ConvState × List (String × JVal) × List String
  | 0, _, _, acc => acc
  | f + 1, comp, isRequired, (st, props, required) =>
    if comp.contains "$ref" then
      let ref := (comp.get "$ref").asString
      match lookupA st.refs ref with
      | some target => addComponent f target isRequired (st, props, required)
      | none =>
        addComponent f .null isRequired
          ({ st with refs := setA st.refs ref .null }, props, required)
    else if comp.contains "properties" then
      match comp.get "properties" with
      | .obj kvs =>
        (st,
         props ++ kvs,
         if isRequired then kvs.foldl (fun acc kv => insertIfNew acc kv.1) required
         else required)
      | _ => (st, props, required)
    else (st, props, required)

/-- The member loop over `schema["allOf"]`. -/
def allOfLoop : Nat → List JVal →
    ConvState × List (String × JVal) × List String →
    ConvState × List (String × JVal) × List String
  | 0, _, acc => acc
  | _ + 1, [], acc => acc
  | f + 1, t :: rest, acc =>
    let acc :=
      if t.contains "anyOf" then
        match t.get "anyOf" with
        | .arr tts => tts.foldl (fun a tt => addComponent 64 tt false a) acc
        | _ => acc
      else addComponent 64 t true acc
    allOfLoop f rest acc

/-- `regex_match(schema_format, "^uuid[1-5]?$")`. -/
def isUuidFormat (s : String) : Bool :=
  match s.data with
  | ['u', 'u', 'i', 'd'] => true
  | ['u', 'u', 'i', 'd', c] => ['1', '2', '3', '4', '5'].contains c
  | _ => false

/-- `_generate_constant_rule(value)`. -/
def generateConstantRule (v : JVal) : String :=
  formatLiteral (dump v)

/-- `schema_type.is_null() || schema_type == "s"`. -/
def typeNullOr (t : JVal) (s : String) : Bool :=
  (match t with | .null => true | _ => false) || t.isStr s

/-- The call descriptors of the defunctionalised recursive visitor: the
C++ member functions `visit` and `_resolve_ref`, the loops of
`_generate_union_rule`, the tuple loop of the array branch, and the
property loop of `_build_object_rule` (which, once its properties are
exhausted, performs the `additionalProperties` handling and the final
assembly, returning the object rule's text). -/
inductive Call where
  | visitC (schema : JVal) (name : String)
  | resolveRefC (ref : String)
  | unionC (name : String) (alts : List JVal) (i : Nat) (acc : List String)
  | tupleC (name : String) (items : List JVal) (i : Nat) (ruleAcc : String)
  | propsC (name : String) (props : List (String × JVal)) (required : List String)
      (additional : JVal) (kvNames : List (String × String)) (reqAcc optAcc : List String)

/-- The defunctionalised converter: one unit of fuel per call.  Handlers
transcribe the corresponding C++ member functions; `none` is fuel
exhaustion. -/
def step (dotall : Bool) : Nat → Call → ConvState → Option (String × ConvState)
  | 0, _, _ => none
  | f + 1, c, st =>
    match c with
    | .resolveRefC ref =>
      let refName := trailingName ref
      if (st.rules.lookup refName).isNone && !st.refsBeingResolved.contains ref then
        let st := { st with refsBeingResolved := st.refsBeingResolved ++ [ref] }
        let (resolved, st) :=
          match lookupA st.refs ref with
          | some j => (j, st)
          | none => (.null, { st with refs := setA st.refs ref .null })
        match step dotall f (.visitC resolved refName) st with
        | none => none
        | some (newName, st) =>
          some (newName, { st with refsBeingResolved := st.refsBeingResolved.erase ref })
      else some (refName, st)
    | .unionC name alts i acc =>
      match alts with
      | [] => some (joinSep acc " | ", st)
      | a :: rest =>
        match step dotall f (.visitC a
            (name ++ (if name.isEmpty then "alternative-" else "-") ++ natToString i)) st with
        | none => none
        | some (r, st) => step dotall f (.unionC name rest (i + 1) (acc ++ [r])) st
    | .tupleC name items i ruleAcc =>
      match items with
      | [] => some (ruleAcc, st)
      | x :: rest =>
        let ruleAcc := if i > 0 then ruleAcc ++ " \",\" space " else ruleAcc
        match step dotall f (.visitC x (nameDash name ("tuple-" ++ natToString i))) st with
        | none => none
        | some (r, st) => step dotall f (.tupleC name rest (i + 1) (ruleAcc ++ r)) st
    | .propsC name props required additional kvNames reqAcc optAcc =>
      match props with
      | (propName, propSchema) :: rest =>
        match step dotall f (.visitC propSchema (nameDash name propName)) st with
        | none => none
        | some (propRuleName, st) =>
          let (kvr, st) := st.addRule (nameDash name (propName ++ "-kv"))
            (formatLiteral (dump (.str propName)) ++ " space \":\" space " ++ propRuleName)
          let kvNames := setA kvNames propName kvr
          if required.contains propName then
            step dotall f (.propsC name rest required additional kvNames
              (reqAcc ++ [propName]) optAcc) st
          else
            step dotall f (.propsC name rest required additional kvNames
              reqAcc (optAcc ++ [propName])) st
      | [] =>
        let needAdditional :=
          match additional with
          | .obj _ => true
          | .bool b => b
          | _ => false
        if needAdditional then
          let subName := nameDash name "additional"
          let valueSchema :=
            match additional with
            | .obj kvs => JVal.obj kvs
            | _ => JVal.obj []
          match step dotall f (.visitC valueSchema (subName ++ "-value")) st with
          | none => none
          | some (valueRule, st) =>
            let (strRule, st) := addPrimitive "string" (primAt "string") st
            let (kvRule, st) := st.addRule (subName ++ "-kv")
              (strRule ++ " \":\" space " ++ valueRule)
            let kvNames := setA kvNames "*" kvRule
            some (assembleObjectRule name kvNames reqAcc (optAcc ++ ["*"]) st)
        else
          some (assembleObjectRule name kvNames reqAcc optAcc st)
    | .visitC schema name =>
      let schemaType := if schema.contains "type" then schema.get "type" else .null
      let schemaFormat := if schema.contains "format" then (schema.get "format").asString else ""
      let ruleName :=
        if isReservedName name then name ++ "-"
        else if name.isEmpty then "root" else name
      if schema.contains "$ref" then
        match step dotall f (.resolveRefC (schema.get "$ref").asString) st with
        | none => none
        | some (rn, st) => some (st.addRule ruleName rn)
      else if schema.contains "oneOf" || schema.contains "anyOf" then
        let alts :=
          match (if schema.contains "oneOf" then schema.get "oneOf" else schema.get "anyOf") with
          | .arr xs => xs
          | _ => []
        match step dotall f (.unionC name alts 0 []) st with
        | none => none
        | some (rule, st) => some (st.addRule ruleName rule)
      else if (match schemaType with | .arr _ => true | _ => false) then
        let ts := match schemaType with | .arr xs => xs | _ => []
        match step dotall f (.unionC name (ts.map (fun t => JVal.obj [("type", t)])) 0 []) st with
        | none => none
        | some (rule, st) => some (st.addRule ruleName rule)
      else if schema.contains "const" then
        some (st.addRule ruleName (generateConstantRule (schema.get "const")))
      else if schema.contains "enum" then
        let vs := match schema.get "enum" with | .arr xs => xs | _ => []
        some (st.addRule ruleName (joinSep (vs.map generateConstantRule) " | "))
      else if typeNullOr schemaType "object" &&
          (schema.contains "properties" ||
            (schema.contains "additionalProperties" &&
              !(schema.get "additionalProperties").isTrueJ)) then
        let required :=
          if schema.contains "required" then
            match schema.get "required" with
            | .arr xs =>
              xs.foldl (fun acc it =>
                match it with
                | .str s => insertIfNew acc s
                | _ => acc) []
            | _ => []
          else []
        let properties :=
          if schema.contains "properties" then
            match schema.get "properties" with
            | .obj kvs => kvs
            | _ => []
          else []
        let additional :=
          if schema.contains "additionalProperties" then schema.get "additionalProperties"
          else JVal.null
        match step dotall f (.propsC name properties required additional [] [] []) st with
        | none => none
        | some (ruleText, st) => some (st.addRule ruleName ruleText)
      else if typeNullOr schemaType "object" && schema.contains "allOf" then
        let members := match schema.get "allOf" with | .arr xs => xs | _ => []
        let (st, props, required) := allOfLoop 64 members (st, [], [])
        match step dotall f (.propsC name props required .null [] [] []) st with
        | none => none
        | some (ruleText, st) => some (st.addRule ruleName ruleText)
      else if typeNullOr schemaType "array" &&
          (schema.contains "items" || schema.contains "prefixItems") then
        let items := if schema.contains "items" then schema.get "items" else schema.get "prefixItems"
        match items with
        | .arr xs =>
          match step dotall f (.tupleC name xs 0 "\"[\" space ") st with
          | none => none
          | some (ruleText, st) => some (st.addRule ruleName (ruleText ++ " \"]\" space"))
        | _ =>
          match step dotall f (.visitC items (nameDash name "item")) st with
          | none => none
          | some (itemRuleName, st) =>
            let minItems := if schema.contains "minItems" then (schema.get "minItems").asInt else 0
            let maxItems :=
              match (if schema.contains "maxItems" then schema.get "maxItems" else JVal.null) with
              | .num n => n
              | _ => intMax
            some (st.addRule ruleName
              ("\"[\" space " ++ buildRepetition itemRuleName minItems maxItems "\",\" space" ++
                " \"]\" space"))
      else if typeNullOr schemaType "string" && schema.contains "pattern" then
        visitPattern dotall (schema.get "pattern").asString ruleName st
      else if typeNullOr schemaType "string" && isUuidFormat schemaFormat then
        some (addPrimitive (if ruleName = "root" then "root" else schemaFormat) (primAt "uuid") st)
      else if typeNullOr schemaType "string" &&
          (lookupA STRING_FORMAT_RULES (schemaFormat ++ "-string")).isSome then
        let primName := schemaFormat ++ "-string"
        let (pn, st) := addPrimitive primName (formatAt primName) st
        some (st.addRule ruleName pn)
      else if schemaType.isStr "string" &&
          (schema.contains "minLength" || schema.contains "maxLength") then
        let (charRule, st) := addPrimitive "char" (primAt "char") st
        let minLen := if schema.contains "minLength" then (schema.get "minLength").asInt else 0
        let maxLen := if schema.contains "maxLength" then (schema.get "maxLength").asInt else intMax
        some (st.addRule ruleName
          ("\"\\\"\" " ++ buildRepetition charRule minLen maxLen ++ " \"\\\"\" space"))
      else if schema.isEmptyJ || schemaType.isStr "object" then
        let (objName, st) := addPrimitive "object" (primAt "object") st
        some (st.addRule ruleName objName)
      else
        match schemaType with
        | .str t =>
          if (lookupA PRIMITIVE_RULES t).isSome then
            some (addPrimitive (if ruleName = "root" then "root" else t) (primAt t) st)
          else some ("", st.addError ("Unrecognized schema: " ++ dump schema))
        | _ => some ("", st.addError ("Unrecognized schema: " ++ dump schema))

/-- A step into a JSON value: object key or array index. -/
inductive PathElem where
  | key (k : String)
  | idx (n : Nat)

/-- Read the value at a path. -/
def getAt : JVal → List PathElem → Option JVal
  | j, [] => some j
  | .obj kvs, .key k :: rest =>
    match lookupA kvs k with
    | some v => getAt v rest
    | none => none
  | .arr xs, .idx n :: rest =>
    match xs.get? n with
    | some v => getAt v rest
    | none => none
  | _, _ => none

/-- Replace the value at a path (no-op when the path is absent); the fuel
is at least the path length at every call site. -/
def setAtF : Nat → JVal → List PathElem → JVal → JVal
  | 0, j, _, _ => j
  | _ + 1, _, [], v => v
  | f + 1, .obj kvs, .key k :: rest, v =>
    match lookupA kvs k with
    | none => .obj kvs
    | some old => .obj (setA kvs k (setAtF f old rest v))
  | f + 1, .arr xs, .idx n :: rest, v =>
    match xs.get? n with
    | none => .arr xs
    | some old => .arr (xs.take n ++ [setAtF f old rest v] ++ xs.drop (n + 1))
  | _ + 1, j, _, _ => j

/-- The JSON-pointer walk of `resolve_refs`: follow the selectors,
reporting the failing selector and the value it was not found in. -/
def walkPtr : List String → JVal → Except (String × JVal) JVal
  | [], t => .ok t
  | sel :: rest, t =>
    if (match t with | .null => true | _ => false) || !t.contains sel then .error (sel, t)
    else walkPtr rest (t.get sel)

/-- `visit_refs`, the DFS of `resolve_refs`, defunctionalised over an
explicit work list of paths into the threaded root (the C++ mutates the
document in place while later pointer walks read the partially rewritten
root; threading the root through an agenda reproduces that order
exactly).  A nested `resolve_refs(referenced, base_url)` run for a
fetched remote document recurses with the fetched document as its own
root.  One unit of fuel per processed node. -/
def visitRefsLoop (fetch : String → JVal) :
    Nat → String → JVal → List (List PathElem) → ConvState → Option (JVal × ConvState)
  | 0, _, _, _, _ => none
  | _ + 1, _, root, [], st => some (root, st)
  | f + 1, url, root, p :: agenda, st =>
    match getAt root p with
    | some (.arr xs) =>
      visitRefsLoop fetch f url root
        (((List.range xs.length).map (fun i => p ++ [.idx i])) ++ agenda) st
    | some (.obj kvs) =>
      match lookupA kvs "$ref" with
      | none =>
        visitRefsLoop fetch f url root ((kvs.map (fun kv => p ++ [.key kv.1])) ++ agenda) st
      | some refVal =>
        let ref0 := refVal.asString
        if (lookupA st.refs ref0).isSome then
          visitRefsLoop fetch f url root agenda st
        else if strStarts ref0 "https://" then
          let baseUrl := upToHash ref0
          let afterBase : Option (JVal × ConvState) :=
            match lookupA st.refs baseUrl with
            | some t => some (t, st)
            | none =>
              let referenced := fetch ref0
              match visitRefsLoop fetch f baseUrl referenced [[]] st with
              | none => none
              | some (referenced', st') =>
                some (.null, { st' with refs := setA st'.refs baseUrl referenced' })
          match afterBase with
          | none => none
          | some (target, st) =>
            if !strContainsChar ref0 '#' || (afterHash ref0).isEmpty then
              visitRefsLoop fetch f url root agenda st
            else
              match walkPtr ((splitOnCharS (afterHash ref0) '/').drop 1) target with
              | .error (sel, tgt) =>
                visitRefsLoop fetch f url root agenda
                  (st.addError ("Error resolving ref " ++ ref0 ++ ": " ++ sel ++
                    " not in " ++ dump tgt))
              | .ok tgt =>
                visitRefsLoop fetch f url root agenda { st with refs := setA st.refs ref0 tgt }
        else if strStarts ref0 "#/" then
          let target := root
          let ref1 := url ++ ref0
          let root := setAtF (p.length + 2) root (p ++ [.key "$ref"]) (.str ref1)
          match walkPtr ((splitOnCharS (afterHash ref1) '/').drop 1) target with
          | .error (sel, tgt) =>
            visitRefsLoop fetch f url root agenda
              (st.addError ("Error resolving ref " ++ ref1 ++ ": " ++ sel ++
                " not in " ++ dump tgt))
          | .ok tgt =>
            visitRefsLoop fetch f url root agenda { st with refs := setA st.refs ref1 tgt }
        else
          visitRefsLoop fetch f url root agenda (st.addError ("Unsupported ref: " ++ ref0))
    | _ => visitRefsLoop fetch f url root agenda st

/-- `resolve_refs(schema, url)`: returns the rewritten document and the
state with the populated ref index. -/
def resolveRefs (fetch : String → JVal) (fuel : Nat) (schema : JVal) (url : String)
    (st : ConvState) : Option (JVal × ConvState) :=
  visitRefsLoop fetch fuel url schema [[]] st

/-- The constructed `SchemaConverter`: `_rules["space"] = SPACE_RULE`. -/
def initState : ConvState :=
  { rules := ⟨[("space", SPACE_RULE)], by simp [entriesSorted]⟩
    insOrder := ["space"]
    refs := []
    refsBeingResolved := []
    errors := []
    warnings := [] }

/-- `visit(schema, name)` on a converter state. -/
def visit (dotall : Bool) (fuel : Nat) (schema : JVal) (name : String) (st : ConvState) :
    Option (String × ConvState) :=
  step dotall fuel (.visitC schema name) st

/-- `_resolve_ref(ref)` on a converter state. -/
def resolveRef (dotall : Bool) (fuel : Nat) (ref : String) (st : ConvState) :
    Option (String × ConvState) :=
  step dotall fuel (.resolveRefC ref) st

/-- The conversion pipeline of `json_schema_to_grammar` up to (and
excluding) `check_errors`: construct the converter, `resolve_refs` on a
copy, then `visit` with the empty name; the result is the final converter
state. -/
def convert (fetch : String → JVal) (dotall : Bool) (fuel : Nat) (schema : JVal) :
    Option ConvState :=
  match resolveRefs fetch fuel schema "input" initState with
  | none => none
  | some (copy, st1) =>
    match visit dotall fuel copy "" st1 with
    | none => none
    | some (_, st2) => some st2

/-- `format_grammar()`: one `name ::= rhs` line per rule, in the
iteration order of the `std::map`. -/
def formatGrammar (m : RuleMap) : String :=
  (m.entries.map (fun kv => kv.1 ++ " ::= " ++ kv.2 ++ "\n")).foldl (fun a b => a ++ b) ""

/-- `check_errors()`: a single aggregated failure when any error was
recorded (warnings are only printed to `stderr` in the source and carry no
result). -/
def checkErrors (st : ConvState) : Except String Unit :=
  if st.errors.isEmpty then .ok ()
  else .error ("JSON schema conversion failed:\n" ++ joinSep st.errors "\n")

/-- The full compiler with an explicit fetcher and `dotall` flag (the
direct `SchemaConverter` construction): `resolve_refs`, `visit`,
`check_errors`, `format_grammar`. -/
def compileWith (fetch : String → JVal) (dotall : Bool) (fuel : Nat) (schema : JVal) :
    Option (Except String String) :=
  (convert fetch dotall fuel schema).map
    (fun st => (checkErrors st).map (fun _ => formatGrammar st.rules))

/-- `json_schema_to_grammar(schema)`: the public entry point, with the
no-op fetcher returning an empty JSON object and `dotall = false`. -/
def jsonSchemaToGrammar (fuel : Nat) (schema : JVal) : Option (Except String String) :=
  compileWith (fun _ => JVal.obj []) false fuel schema

/-! ### Semantics of the built-in catalog rules reachable from `value`

To settle the claim that the empty schema's `root` is language-equivalent
to the catalog rule `value`, the GBNF productions of `PRIMITIVE_RULES`
reachable from `value` (and `space`) are transcribed as inductive
acceptance predicates over character lists.  Each constructor mirrors one
alternative of the corresponding `content` string in `PRIMITIVE_RULES`
verbatim. -/

/-- Names of the transcribed catalog rules. -/
inductive PName where
  | pspace | pboolean | pnull | pdecimal | pintegral | pnumber
  | pchar | pstring | pvalue | pobject | parray

/-- The character class `[0-9]`. -/
def DigitCh (c : Char) : Prop := '0' ≤ c ∧ c ≤ '9'

/-- The character class `[1-9]`. -/
def Digit19 (c : Char) : Prop := '1' ≤ c ∧ c ≤ '9'

/-- The character class `[0-9a-fA-F]`. -/
def HexCh (c : Char) : Prop :=
  DigitCh c ∨ ('a' ≤ c ∧ c ≤ 'f') ∨ ('A' ≤ c ∧ c ≤ 'F')

mutual

/-- Acceptance of the catalog rules, one constructor per alternative:
* `space ::= " "?`
* `boolean ::= ("true" | "false") space`
* `null ::= "null" space`
* `decimal-part ::= [0-9]` followed by up to 15 digits
* `integral-part ::= [0-9] | [1-9]` followed by up to 15 digits
* `number ::= ("-"? integral-part) ("." decimal-part)? ([eE] [-+]?
  integral-part)? space`
* `char ::= [^"\\] | "\\" (["\\/bfnrt] | "u" [0-9a-fA-F]x4)`
* `string ::= "\"" char* "\"" space`
* `value ::= object | array | string | number | boolean | null`
* `object ::= "{" space ( string ":" space value ("," space string ":"
  space value)* )? "}" space`
* `array ::= "[" space ( value ("," space value)* )? "]" space` -/
inductive GAcc : PName → List Char → Prop where
  | space_empty : GAcc .pspace []
  | space_one : GAcc .pspace [' ']
  | bool_true (sp : List Char) : GAcc .pspace sp →
      GAcc .pboolean ('t' :: 'r' :: 'u' :: 'e' :: sp)
  | bool_false (sp : List Char) : GAcc .pspace sp →
      GAcc .pboolean ('f' :: 'a' :: 'l' :: 's' :: 'e' :: sp)
  | null_lit (sp : List Char) : GAcc .pspace sp →
      GAcc .pnull ('n' :: 'u' :: 'l' :: 'l' :: sp)
  | decimal_mk (c : Char) (ds : List Char) : DigitCh c → (∀ d ∈ ds, DigitCh d) →
      ds.length ≤ 15 → GAcc .pdecimal (c :: ds)
  | integral_one (c : Char) : DigitCh c → GAcc .pintegral [c]
  | integral_many (c : Char) (ds : List Char) : Digit19 c → (∀ d ∈ ds, DigitCh d) →
      ds.length ≤ 15 → GAcc .pintegral (c :: ds)
  | number_mk (neg ip fr ex sp : List Char) :
      (neg = [] ∨ neg = ['-']) → GAcc .pintegral ip → NumFrac fr → NumExp ex →
      GAcc .pspace sp → GAcc .pnumber (neg ++ ip ++ fr ++ ex ++ sp)
  | char_plain (c : Char) : c ≠ '"' → c ≠ '\\' → GAcc .pchar [c]
  | char_escaped (c : Char) : c ∈ ['"', '\\', '/', 'b', 'f', 'n', 'r', 't'] →
      GAcc .pchar ['\\', c]
  | char_unicode (h1 h2 h3 h4 : Char) : HexCh h1 → HexCh h2 → HexCh h3 → HexCh h4 →
      GAcc .pchar ['\\', 'u', h1, h2, h3, h4]
  | string_mk (parts : List (List Char)) (sp : List Char) :
      (∀ p ∈ parts, GAcc .pchar p) → GAcc .pspace sp →
      GAcc .pstring ('"' :: parts.flatten ++ '"' :: sp)
  | value_object (w : List Char) : GAcc .pobject w → GAcc .pvalue w
  | value_array (w : List Char) : GAcc .parray w → GAcc .pvalue w
  | value_string (w : List Char) : GAcc .pstring w → GAcc .pvalue w
  | value_number (w : List Char) : GAcc .pnumber w → GAcc .pvalue w
  | value_boolean (w : List Char) : GAcc .pboolean w → GAcc .pvalue w
  | value_null (w : List Char) : GAcc .pnull w → GAcc .pvalue w
  | object_empty (sp sp2 : List Char) : GAcc .pspace sp → GAcc .pspace sp2 →
      GAcc .pobject ('\x7b' :: sp ++ '\x7d' :: sp2)
  | object_items (sp s sp1 v t sp2 : List Char) : GAcc .pspace sp → GAcc .pstring s →
      GAcc .pspace sp1 → GAcc .pvalue v → ObjTail t → GAcc .pspace sp2 →
      GAcc .pobject ('\x7b' :: sp ++ s ++ ':' :: sp1 ++ v ++ t ++ '\x7d' :: sp2)
  | array_empty (sp sp2 : List Char) : GAcc .pspace sp → GAcc .pspace sp2 →
      GAcc .parray ('[' :: sp ++ ']' :: sp2)
  | array_items (sp v t sp2 : List Char) : GAcc .pspace sp → GAcc .pvalue v →
      ArrTail t → GAcc .pspace sp2 →
      GAcc .parray ('[' :: sp ++ v ++ t ++ ']' :: sp2)

/-- The Kleene tail `("," space string ":" space value)*` of `object`. -/
inductive ObjTail : List Char → Prop where
  | nil : ObjTail []
  | cons (sp s sp1 v t : List Char) : GAcc .pspace sp → GAcc .pstring s →
      GAcc .pspace sp1 → GAcc .pvalue v → ObjTail t →
      ObjTail (',' :: sp ++ s ++ ':' :: sp1 ++ v ++ t)

/-- The Kleene tail `("," space value)*` of `array`. -/
inductive ArrTail : List Char → Prop where
  | nil : ArrTail []
  | cons (sp v t : List Char) : GAcc .pspace sp → GAcc .pvalue v → ArrTail t →
      ArrTail (',' :: sp ++ v ++ t)

/-- The optional fraction `("." decimal-part)?` of `number`. -/
inductive NumFrac : List Char → Prop where
  | nofrac : NumFrac []
  | mk (d : List Char) : GAcc .pdecimal d → NumFrac ('.' :: d)

/-- The optional exponent `([eE] [-+]? integral-part)?` of `number`. -/
inductive NumExp : List Char → Prop where
  | noexp : NumExp []
  | mk (e : Char) (sgn ip : List Char) : (e = 'e' ∨ e = 'E') →
      (sgn = [] ∨ sgn = ['-'] ∨ sgn = ['+']) → GAcc .pintegral ip →
      NumExp (e :: sgn ++ ip)

end

/-- The text `true` is in the language of the catalog rule `value` (via
its `boolean` alternative with the empty `space`). -/
theorem value_accepts_true : GAcc .pvalue ['t', 'r', 'u', 'e'] :=
  .value_boolean _ (.bool_true [] .space_empty)

/-- The text `true` is not in the language of the catalog rule `object`
(both `object` alternatives start with a left brace). -/
theorem object_rejects_true : ¬ GAcc .pobject ['t', 'r', 'u', 'e'] := by
  intro h
  cases h

/-! ### Machinery for the `_add_rule` claims -/

theorem RuleMap.eq_of_entries {m1 m2 : RuleMap} (h : m1.entries = m2.entries) : m1 = m2 := by
  cases m1; cases m2; simp_all

theorem lookupA_insertEntry_self (l : List (String × String)) (k v : String) :
    lookupA (insertEntry l k v) k = some v := by
  induction l with
  | nil => simp [insertEntry, lookupA]
  | cons hd tl ih =>
    by_cases h1 : k = hd.1
    · simp [insertEntry, h1, lookupA]
    · by_cases h2 : strLtB k hd.1
      · simp [insertEntry, h1, h2, lookupA]
      · simp [insertEntry, h1, h2, lookupA, ih]

theorem lookupA_insertEntry_ne (l : List (String × String)) (k v k' : String)
    (h : k' ≠ k) : lookupA (insertEntry l k v) k' = lookupA l k' := by
  induction l with
  | nil => simp [insertEntry, lookupA, h]
  | cons hd tl ih =>
    by_cases h1 : k = hd.1
    · subst h1
      simp [insertEntry, lookupA, h]
    · by_cases h2 : strLtB k hd.1
      · simp [insertEntry, h1, h2, lookupA, h]
      · simp only [insertEntry, if_neg h1, if_neg h2]
        by_cases h3 : k' = hd.1
        · simp [lookupA, h3]
        · simp [lookupA, h3, ih]

theorem lookupA_eq_none_of_ne {α : Type} (l : List (String × α)) (k : String)
    (h : ∀ p ∈ l, p.1 ≠ k) : lookupA l k = none := by
  induction l with
  | nil => rfl
  | cons hd tl ih =>
    have hk : k ≠ hd.1 := fun he => h hd (List.mem_cons_self _ _) he.symm
    simp only [lookupA, if_neg hk]
    exact ih fun p hp => h p (List.mem_cons_of_mem _ hp)

theorem insertEntry_lookup_noop (l : List (String × String)) (k v : String)
    (hs : entriesSorted l) (h : lookupA l k = some v) : insertEntry l k v = l := by
  induction l with
  | nil => simp [lookupA] at h
  | cons hd tl ih =>
    rcases entriesSorted_cons.mp hs with ⟨hhd, htl⟩
    by_cases h1 : k = hd.1
    · simp only [lookupA, if_pos h1] at h
      cases hd with
      | mk k2 v2 =>
        simp only at h1
        subst h1
        simp only [Option.some.injEq] at h
        simp [insertEntry, h]
    · simp only [lookupA, if_neg h1] at h
      by_cases h2 : strLtB k hd.1
      · exfalso
        have : lookupA tl k = none :=
          lookupA_eq_none_of_ne tl k fun p hp he =>
            (strLt_ne (strLt_trans h2 (hhd p hp))).symm he
        rw [this] at h
        exact Option.noConfusion h
      · simp [insertEntry, h1, h2, ih htl h]

theorem RuleMap.lookup_set_self (m : RuleMap) (k v : String) :
    (m.set k v).lookup k = some v :=
  lookupA_insertEntry_self m.entries k v

theorem RuleMap.lookup_set_ne (m : RuleMap) (k v k' : String) (h : k' ≠ k) :
    (m.set k v).lookup k' = m.lookup k' :=
  lookupA_insertEntry_ne m.entries k v k' h

theorem RuleMap.set_noop (m : RuleMap) (k v : String) (h : m.lookup k = some v) :
    m.set k v = m :=
  RuleMap.eq_of_entries (insertEntry_lookup_noop m.entries k v m.ok h)

theorem ConvState.setRule_noop (st : ConvState) (k v : String)
    (h : st.rules.lookup k = some v) : st.setRule k v = st := by
  unfold ConvState.setRule
  rw [RuleMap.set_noop st.rules k v h, h]
  rfl

theorem ConvState.setRule_rules_lookup_self (st : ConvState) (k v : String) :
    (st.setRule k v).rules.lookup k = some v :=
  RuleMap.lookup_set_self st.rules k v

theorem ConvState.setRule_rules_lookup_ne (st : ConvState) (k v k' : String) (h : k' ≠ k) :
    (st.setRule k v).rules.lookup k' = st.rules.lookup k' :=
  RuleMap.lookup_set_ne st.rules k v k' h

theorem natToChars_fuel_eq (n : Nat) : ∀ f1 f2, n < f1 → n < f2 →
    natToChars f1 n = natToChars f2 n := by
  induction n using Nat.strong_induction_on with
  | _ n ih =>
    intro f1 f2 h1 h2
    match f1, f2 with
    | g1 + 1, g2 + 1 =>
      by_cases h : n < 10
      · simp [natToChars, h]
      · have h10 : 10 ≤ n := Nat.le_of_not_lt h
        have hdiv : n / 10 < n := Nat.div_lt_self (by omega) (by omega)
        simp only [natToChars, if_neg h]
        rw [ih (n / 10) hdiv g1 g2 (by omega) (by omega)]

theorem natToChars_ne_nil (f n : Nat) (h : 0 < f) : natToChars f n ≠ [] := by
  match f with
  | g + 1 =>
    by_cases h10 : n < 10
    · simp [natToChars, h10]
    · simp [natToChars, h10]

theorem digitChar_inj : ∀ x < 10, ∀ y < 10,
    Char.ofNat (48 + x) = Char.ofNat (48 + y) → x = y := by decide

theorem natToString_inj : ∀ a b : Nat, natToString a = natToString b → a = b := by
  intro a
  induction a using Nat.strong_induction_on with
  | _ a ih =>
    intro b hab
    have h : natToChars (a + 1) a = natToChars (b + 1) b := congrArg String.data hab
    by_cases ha : a < 10
    · by_cases hb : b < 10
      · simp only [natToChars, if_pos ha, if_pos hb, List.cons.injEq] at h
        exact digitChar_inj a ha b hb h.1
      · exfalso
        simp only [natToChars, if_pos ha, if_neg hb] at h
        have := congrArg List.length h
        have hne := natToChars_ne_nil b (b / 10) (by omega)
        simp only [List.length_cons, List.length_nil, List.length_append] at this
        cases hx : natToChars b (b / 10) with
        | nil => exact hne hx
        | cons y ys => rw [hx] at this; simp at this
    · by_cases hb : b < 10
      · exfalso
        simp only [natToChars, if_neg ha, if_pos hb] at h
        have := congrArg List.length h
        have hne := natToChars_ne_nil a (a / 10) (by omega)
        simp only [List.length_cons, List.length_nil, List.length_append] at this
        cases hx : natToChars a (a / 10) with
        | nil => exact hne hx
        | cons y ys => rw [hx] at this; simp at this
      · simp only [natToChars, if_neg ha, if_neg hb] at h
        have hinj := List.append_inj' h (by simp)
        have hmod : a % 10 = b % 10 := by
          have := hinj.2
          simp only [List.cons.injEq] at this
          exact digitChar_inj (a % 10) (Nat.mod_lt _ (by omega)) (b % 10)
            (Nat.mod_lt _ (by omega)) this.1
        have hdiva : a / 10 < a := Nat.div_lt_self (by omega) (by omega)
        have hdivb : b / 10 < b := Nat.div_lt_self (by omega) (by omega)
        have hcanon : natToChars (a / 10 + 1) (a / 10) = natToChars (b / 10 + 1) (b / 10) := by
          rw [← natToChars_fuel_eq (a / 10) a (a / 10 + 1) (by omega) (by omega),
            ← natToChars_fuel_eq (b / 10) b (b / 10 + 1) (by omega) (by omega)]
          exact hinj.1
        have hdiv : a / 10 = b / 10 :=
          ih (a / 10) hdiva (b / 10) (congrArg String.mk hcanon)
        omega

theorem strAppend_left_cancel {a x y : String} (h : a ++ x = a ++ y) : x = y := by
  have hd : a.data ++ x.data = a.data ++ y.data := congrArg String.data h
  cases x; cases y
  simp only [List.append_cancel_left_eq] at hd
  simp [hd]

theorem suffixKey_inj (esc : String) : Function.Injective (fun i => esc ++ natToString i) := by
  intro a b h
  exact natToString_inj a b (strAppend_left_cancel h)

theorem lookupA_mem {α : Type} (l : List (String × α)) (k : String) (v : α)
    (h : lookupA l k = some v) : k ∈ l.map Prod.fst := by
  induction l with
  | nil => simp [lookupA] at h
  | cons hd tl ih =>
    by_cases h1 : k = hd.1
    · simp [h1]
    · simp only [lookupA, if_neg h1] at h
      simp [ih h]

theorem ruleMap_keys_nodup (m : RuleMap) : (m.entries.map Prod.fst).Nodup := by
  have hp : m.entries.Pairwise (fun a b => strLt a.1 b.1) := List.chain'_iff_pairwise.mp m.ok
  have hp2 : (m.entries.map Prod.fst).Pairwise strLt := List.pairwise_map.mpr hp
  exact hp2.imp strLt_ne

theorem suffixFree_false_mem (st : ConvState) (esc rhs : String) (i : Nat)
    (h : suffixFree st esc rhs i = false) :
    (esc ++ natToString i) ∈ st.rules.entries.map Prod.fst := by
  unfold suffixFree at h
  cases hl : st.rules.lookup (esc ++ natToString i) with
  | none => rw [hl] at h; simp at h
  | some w => exact lookupA_mem _ _ _ hl

theorem exists_suffixFree (st : ConvState) (esc rhs : String) :
    ∃ i, i ≤ st.rules.entries.length ∧ suffixFree st esc rhs i = true := by
  by_contra hall
  push_neg at hall
  have hblocked : ∀ i ≤ st.rules.entries.length, suffixFree st esc rhs i = false := by
    intro i hi
    cases hfree : suffixFree st esc rhs i with
    | true => exact absurd hfree (hall i hi)
    | false => rfl
  set N := st.rules.entries.length with hN
  set cand := (List.range (N + 1)).map (fun i => esc ++ natToString i) with hcand
  have hnodup : cand.Nodup := (List.nodup_range (N + 1)).map (suffixKey_inj esc)
  have hsub : cand ⊆ st.rules.entries.map Prod.fst := by
    intro x hx
    rcases List.mem_map.mp hx with ⟨i, hi, hxi⟩
    have hiN : i ≤ N := by
      have := List.mem_range.mp hi
      omega
    subst hxi
    exact suffixFree_false_mem st esc rhs i (hblocked i hiN)
  have hle : cand.length ≤ (st.rules.entries.map Prod.fst).length :=
    (hnodup.subperm hsub).length_le
  simp only [hcand, List.length_map, List.length_range] at hle
  omega

theorem findSuffixGo_spec (st : ConvState) (esc rhs : String) :
    ∀ fuel i0, (∃ j, i0 ≤ j ∧ j < i0 + fuel ∧ suffixFree st esc rhs j = true) →
      suffixFree st esc rhs (findSuffixGo st esc rhs fuel i0) = true ∧
      i0 ≤ findSuffixGo st esc rhs fuel i0 ∧
      ∀ j, i0 ≤ j → j < findSuffixGo st esc rhs fuel i0 → suffixFree st esc rhs j = false := by
  intro fuel
  induction fuel with
  | zero =>
    intro i0 h
    rcases h with ⟨j, h1, h2, _⟩
    omega
  | succ f ih =>
    intro i0 h
    by_cases hfree : suffixFree st esc rhs i0 = true
    · simp only [findSuffixGo, if_pos hfree]
      exact ⟨hfree, le_refl _, fun j hj1 hj2 => by omega⟩
    · have hfree' : suffixFree st esc rhs i0 = false := by
        cases hx : suffixFree st esc rhs i0 with
        | true => exact absurd hx hfree
        | false => rfl
      simp only [findSuffixGo, if_neg hfree]
      have hex : ∃ j, i0 + 1 ≤ j ∧ j < i0 + 1 + f ∧ suffixFree st esc rhs j = true := by
        rcases h with ⟨j, h1, h2, h3⟩
        refine ⟨j, ?_, by omega, h3⟩
        rcases Nat.eq_or_lt_of_le h1 with h4 | h4
        · exact absurd (h4 ▸ h3) hfree
        · omega
      rcases ih (i0 + 1) hex with ⟨r1, r2, r3⟩
      refine ⟨r1, by omega, ?_⟩
      intro j hj1 hj2
      rcases Nat.eq_or_lt_of_le hj1 with h4 | h4
      · exact h4 ▸ hfree'
      · exact r3 j h4 hj2

theorem natToString_data_ne_nil (i : Nat) : (natToString i).data ≠ [] :=
  natToChars_ne_nil (i + 1) i (by omega)

theorem suffixKey_ne_esc (esc : String) (i : Nat) : esc ++ natToString i ≠ esc := by
  intro h
  have hd : esc.data ++ (natToString i).data = esc.data ++ [] := by
    have := congrArg String.data h
    simpa using this
  exact natToString_data_ne_nil i (List.append_cancel_left hd)

theorem insertEntry_length_ge (l : List (String × String)) (k v : String) :
    l.length ≤ (insertEntry l k v).length := by
  induction l with
  | nil => simp [insertEntry]
  | cons hd tl ih =>
    by_cases h1 : k = hd.1
    · simp [insertEntry, h1]
    · by_cases h2 : strLtB k hd.1
      · simp [insertEntry, h1, h2]
      · simp only [insertEntry, if_neg h1, if_neg h2, List.length_cons]
        omega

theorem setRule_length_ge (st : ConvState) (k v : String) :
    st.rules.entries.length ≤ (st.setRule k v).rules.entries.length :=
  insertEntry_length_ge st.rules.entries k v

theorem suffixFree_setRule_ne (st : ConvState) (k v esc rhs : String) (i : Nat)
    (h : esc ++ natToString i ≠ k) :
    suffixFree (st.setRule k v) esc rhs i = suffixFree st esc rhs i := by
  unfold suffixFree
  rw [ConvState.setRule_rules_lookup_ne st k v _ h]

theorem suffixFree_setRule_self (st : ConvState) (esc rhs : String) (i : Nat) :
    suffixFree (st.setRule (esc ++ natToString i) rhs) esc rhs i = true := by
  unfold suffixFree
  rw [ConvState.setRule_rules_lookup_self]
  simp

/-- `_add_rule` is idempotent: a second call with the same `(name, rhs)`
pair returns the same final name and leaves the converter state
untouched. -/
theorem addRule_idem (st : ConvState) (name rhs : String) :
    (st.addRule name rhs).2.addRule name rhs = st.addRule name rhs := by
  cases h : st.rules.lookup (sanitizeName name) with
  | none =>
    have h1 : st.addRule name rhs = (sanitizeName name, st.setRule (sanitizeName name) rhs) := by
      simp [ConvState.addRule, h]
    rw [h1]
    have h2 : (st.setRule (sanitizeName name) rhs).rules.lookup (sanitizeName name) = some rhs :=
      ConvState.setRule_rules_lookup_self st _ _
    simp [ConvState.addRule, h2, ConvState.setRule_noop _ _ _ h2]
  | some v =>
    by_cases hv : v = rhs
    · have h' : st.rules.lookup (sanitizeName name) = some rhs := hv ▸ h
      have h1 : st.addRule name rhs = (sanitizeName name, st) := by
        simp [ConvState.addRule, h', ConvState.setRule_noop _ _ _ h']
      rw [h1]
      exact h1
    · have h1 : st.addRule name rhs =
          (sanitizeName name ++
            natToString (findSuffixGo st (sanitizeName name) rhs (st.rules.entries.length + 1) 0),
           st.setRule (sanitizeName name ++
            natToString (findSuffixGo st (sanitizeName name) rhs (st.rules.entries.length + 1) 0))
            rhs) := by
        simp [ConvState.addRule, h, hv]
      set esc := sanitizeName name with hesc
      set i := findSuffixGo st esc rhs (st.rules.entries.length + 1) 0 with hi
      set key := esc ++ natToString i with hkey
      set st1 := st.setRule key rhs with hst1
      -- the specification of the first search
      have hex : ∃ j, 0 ≤ j ∧ j < 0 + (st.rules.entries.length + 1) ∧
          suffixFree st esc rhs j = true := by
        rcases exists_suffixFree st esc rhs with ⟨j, hj1, hj2⟩
        exact ⟨j, by omega, by omega, hj2⟩
      rcases findSuffixGo_spec st esc rhs (st.rules.entries.length + 1) 0 hex with
        ⟨hfree, _, hleast⟩
      -- `i` is bounded by the table size
      have hiN : i ≤ st.rules.entries.length := by
        rcases exists_suffixFree st esc rhs with ⟨j, hj1, hj2⟩
        by_contra hgt
        have : suffixFree st esc rhs j = false := hleast j (by omega) (by omega)
        rw [hj2] at this
        exact Bool.noConfusion this
      -- freeness in the updated state
      have hfree1 : suffixFree st1 esc rhs i = true := suffixFree_setRule_self st esc rhs i
      have hsame : ∀ j, j ≠ i → suffixFree st1 esc rhs j = suffixFree st esc rhs j := by
        intro j hj
        exact suffixFree_setRule_ne st key rhs esc rhs j
          (fun hcontra => hj (suffixKey_inj esc (by simpa [hkey] using hcontra)))
      -- the second call sees the same escaped name still bound to `v`
      have hlook1 : st1.rules.lookup esc = some v := by
        rw [hst1, ConvState.setRule_rules_lookup_ne st key rhs esc
          (fun hcontra => suffixKey_ne_esc esc i (by rw [hkey] at hcontra; exact hcontra.symm))]
        exact h
      have hex1 : ∃ j, 0 ≤ j ∧ j < 0 + (st1.rules.entries.length + 1) ∧
          suffixFree st1 esc rhs j = true := by
        refine ⟨i, by omega, ?_, hfree1⟩
        have := setRule_length_ge st key rhs
        rw [← hst1] at this
        omega
      rcases findSuffixGo_spec st1 esc rhs (st1.rules.entries.length + 1) 0 hex1 with
        ⟨hfree2, _, hleast2⟩
      set i2 := findSuffixGo st1 esc rhs (st1.rules.entries.length + 1) 0 with hi2
      have hii : i2 = i := by
        rcases lt_trichotomy i2 i with hlt | heq | hgt
        · have h1' : suffixFree st1 esc rhs i2 = suffixFree st esc rhs i2 :=
            hsame i2 (by omega)
          have h2' : suffixFree st esc rhs i2 = false := hleast i2 (by omega) hlt
          rw [h1', h2'] at hfree2
          exact Bool.noConfusion hfree2
        · exact heq
        · have := hleast2 i (by omega) hgt
          rw [hfree1] at this
          exact Bool.noConfusion this
      have hlookkey : st1.rules.lookup key = some rhs := by
        rw [hst1, hkey]
        exact ConvState.setRule_rules_lookup_self st _ _
      have h2 : st1.addRule name rhs = (key, st1) := by
        simp only [ConvState.addRule, ← hesc, hlook1, hv, if_neg hv, ← hi2, hii, ← hkey]
        rw [ConvState.setRule_noop st1 key rhs hlookkey]
        simp
      rw [h1]
      exact h2

/-- `_add_rule` under a name collision: when the sanitized name is bound
to a different right-hand side, the rule is installed under the name
extended with the smallest suffix whose slot is absent or already maps to
that right-hand side. -/
theorem addRule_collision (st : ConvState) (name rhs v : String)
    (h : st.rules.lookup (sanitizeName name) = some v) (hv : v ≠ rhs) :
    ∃ i, (st.addRule name rhs).1 = sanitizeName name ++ natToString i ∧
      suffixFree st (sanitizeName name) rhs i = true ∧
      (∀ j < i, suffixFree st (sanitizeName name) rhs j = false) ∧
      (st.addRule name rhs).2.rules.lookup (sanitizeName name ++ natToString i) = some rhs := by
  set esc := sanitizeName name with hesc
  set i := findSuffixGo st esc rhs (st.rules.entries.length + 1) 0 with hi
  have h1 : st.addRule name rhs = (esc ++ natToString i, st.setRule (esc ++ natToString i) rhs) := by
    simp [ConvState.addRule, ← hesc, h, hv]
  have hex : ∃ j, 0 ≤ j ∧ j < 0 + (st.rules.entries.length + 1) ∧
      suffixFree st esc rhs j = true := by
    rcases exists_suffixFree st esc rhs with ⟨j, hj1, hj2⟩
    exact ⟨j, by omega, by omega, hj2⟩
  rcases findSuffixGo_spec st esc rhs (st.rules.entries.length + 1) 0 hex with ⟨hfree, _, hleast⟩
  refine ⟨i, by rw [h1], hfree, fun j hj => hleast j (by omega) hj, ?_⟩
  rw [h1]
  exact ConvState.setRule_rules_lookup_self st _ _

/-! ### Concrete inputs used by the claims -/

/-- The no-op fetcher of `json_schema_to_grammar`. -/
def noFetch : String → JVal := fun _ => JVal.obj []

/-- The empty schema. -/
def emptySchema : JVal := JVal.obj []

/-- A string schema with a given `pattern`. -/
def strPatSchema (p : String) : JVal :=
  JVal.obj [("type", JVal.str "string"), ("pattern", JVal.str p)]

/-- A schema whose `$defs` entry is named like the reserved primitive
`string` and refers to itself through `#/$defs/string`; both conversion
and reference resolution succeed on it. -/
def danglingSchema : JVal :=
  JVal.obj
    [("$defs", JVal.obj
        [("string", JVal.obj
            [("properties", JVal.obj
                [("s", JVal.obj [("$ref", JVal.str "#/$defs/string")])])])]),
     ("properties", JVal.obj
        [("x", JVal.obj [("$ref", JVal.str "#/$defs/string")])])]

/-- The cyclic schema of the specification's boundary example: `A` refers
to itself through `#/$defs/A`. -/
def cyclicSchema : JVal :=
  JVal.obj
    [("$defs", JVal.obj
        [("A", JVal.obj
            [("properties", JVal.obj
                [("next", JVal.obj [("$ref", JVal.str "#/$defs/A")])])])]),
     ("properties", JVal.obj
        [("x", JVal.obj [("$ref", JVal.str "#/$defs/A")])])]

/-- A second extensionally-equal fetcher (syntactically different from
`noFetch`). -/
def noFetchB : String → JVal := fun u => if u = u then JVal.obj [] else JVal.null

/-- The error buffer after the conversion pipeline (`resolve_refs` then
`visit`), before `check_errors` decides the outcome. -/
def convErrors (fetch : String → JVal) (dotall : Bool) (fuel : Nat) (schema : JVal) :
    Option (List String) :=
  (convert fetch dotall fuel schema).map (fun st => st.errors)

theorem strEq_of_data {s t : String} (h : s.data = t.data) : s = t := by
  cases s; cases t; simp_all

/-! ### The claims -/

/-- C1 (counterexample): on the successfully compiled empty schema the
serialized rule order (the `std::map` iteration order of the rule table,
which is what `format_grammar` emits line by line) differs from the order
in which the rules were first inserted during conversion: insertion starts
with `space`, serialization starts with `array`. -/
theorem claim_C1_counterexample :
    (convert noFetch false 100 emptySchema).map
        (fun st => (st.rules.entries.map Prod.fst, st.insOrder)) =
      some (["array", "boolean", "char", "decimal-part", "integral-part", "null", "number",
             "object", "root", "space", "string", "value"],
            ["space", "object", "string", "char", "value", "array", "number", "integral-part",
             "decimal-part", "boolean", "null", "root"]) ∧
    (["array", "boolean", "char", "decimal-part", "integral-part", "null", "number",
      "object", "root", "space", "string", "value"] : List String) ≠
      ["space", "object", "string", "char", "value", "array", "number", "integral-part",
       "decimal-part", "boolean", "null", "root"] :=
  ⟨by rfl, by decide⟩

/-- C1 (amended): for every schema that compiles, the serialized grammar
lists its rules one per line in strictly increasing lexicographic order of
their names — the iteration order of the `std::map` rule table — not in
insertion order. -/
theorem claim_C1 (fetch : String → JVal) (dotall : Bool) (fuel : Nat) (schema : JVal)
    (names : List String)
    (h : (convert fetch dotall fuel schema).map (fun st => st.rules.entries.map Prod.fst) =
      some names) :
    names.Chain' strLt := by
  cases hc : convert fetch dotall fuel schema with
  | none => rw [hc] at h; simp at h
  | some st =>
    rw [hc] at h
    simp only [Option.map_some', Option.some.injEq] at h
    subst h
    exact (List.chain'_map Prod.fst).mpr st.rules.ok

theorem claim_C1_witness :
    List.Chain' strLt ["array", "boolean", "char", "decimal-part", "integral-part", "null",
      "number", "object", "root", "space", "string", "value"] :=
  claim_C1 noFetch false 100 emptySchema
    ["array", "boolean", "char", "decimal-part", "integral-part", "null", "number", "object",
     "root", "space", "string", "value"] (by rfl)

/-- C2 (counterexample): compiling the empty schema binds `root` to the
`object` primitive, whose language differs from that of the catalog rule
`value`: the text `true` is accepted by `value` (through its `boolean`
alternative) but not by `object`, so `root` is not equivalent to
`value`. -/
theorem claim_C2_counterexample :
    (convert noFetch false 100 emptySchema).map (fun st => st.rules.lookup "root") =
      some (some "object") ∧
    GAcc .pvalue ['t', 'r', 'u', 'e'] ∧ ¬ GAcc .pobject ['t', 'r', 'u', 'e'] :=
  ⟨by rfl, value_accepts_true, object_rejects_true⟩

set_option maxRecDepth 4000 in
/-- C2 (amended): the empty schema compiles to a grammar whose `root` is
the `object` primitive (`root ::= object`), the full serialized grammar
being the catalog closure of `object`. -/
theorem claim_C2 :
    jsonSchemaToGrammar 100 emptySchema =
      some (.ok ("array ::= \"[\" space ( value (\",\" space value)* )? \"]\" space\nboolean ::= (\"true\" | \"false\") space\nchar ::= [^\"\\\\] | \"\\\\\" ([\"\\\\/bfnrt] | \"u\" [0-9a-fA-F] [0-9a-fA-F] [0-9a-fA-F] [0-9a-fA-F])\ndecimal-part ::= [0-9] ([0-9] ([0-9] ([0-9] ([0-9] ([0-9] ([0-9] ([0-9] ([0-9] ([0-9] ([0-9] ([0-9] ([0-9] ([0-9] ([0-9] ([0-9])?)?)?)?)?)?)?)?)?)?)?)?)?)?)?\nintegral-part ::= [0-9] | [1-9] ([0-9] ([0-9] ([0-9] ([0-9] ([0-9] ([0-9] ([0-9] ([0-9] ([0-9] ([0-9] ([0-9] ([0-9] ([0-9] ([0-9] ([0-9])?)?)?)?)?)?)?)?)?)?)?)?)?)?)?\nnull ::= \"null\" space\nnumber ::= (\"-\"? integral-part) (\".\" decimal-part)? ([eE] [-+]? integral-part)? space\nobject ::= \"\x7b\" space ( string \":\" space value (\",\" space string \":\" space value)* )? \"\x7d\" space\nroot ::= object\nspace ::= \" \"?\nstring ::= \"\\\"\" char* \"\\\"\" space\nvalue ::= object | array | string | number | boolean | null\n")) :=
  by rfl

/-- C3 (counterexample): with the empty separator, `min = 0` and
unbounded `max`, `build_repetition` returns the parenthesised
`(item)*`, not the claimed bare `item*`. -/
theorem claim_C3_counterexample :
    buildRepetition "a" 0 intMax "" false = "(a)*" ∧ ("(a)*" : String) ≠ "a*" :=
  ⟨by rfl, by decide⟩

/-- C3 (amended): with the empty separator, `build_repetition` returns
exactly `item?` for `min = 0, max = 1`, exactly `item+` for `min = 1,
max` unbounded, and exactly `(item)*` (parenthesised) for `min = 0, max`
unbounded. -/
theorem claim_C3 (item : String) (lit : Bool) :
    buildRepetition item 0 1 "" lit = item ++ "?" ∧
    buildRepetition item 1 intMax "" lit = item ++ "+" ∧
    buildRepetition item 0 intMax "" lit = "(" ++ item ++ ")*" := by
  have hE : ("" : String).isEmpty = true := rfl
  refine ⟨by simp [buildRepetition, hE], by simp [buildRepetition, hE, intMax], ?_⟩
  simp only [buildRepetition, hE, intMax]
  split_ifs with h1 h2 h3 h4 h5 h6 h7 h8 h9 h10 h11 h12
  all_goals
    first
      | exact absurd h1 (by decide)
      | exact absurd h2 (by decide)
      | exact absurd rfl h3
      | exact absurd h9 (by decide)
      | exact absurd h10 (by decide)
      | omega
      | (apply strEq_of_data; simp [String.data_append])

set_option maxRecDepth 4000 in
/-- C4 (code bug): the schema `danglingSchema` — a `$defs` entry named
like the reserved primitive `string` that refers to itself — compiles
with no recorded error, yet the emitted rule table maps `string-s` to the
right-hand side `string` while no rule named `string` exists: the claimed
closure invariant fails on a successful compilation.  (The in-progress
cycle break returns the bare trailing name `string`, but the in-flight
`visit` installs its rule under the reserved-name escape `string-`.) -/
theorem claim_C4 :
    (convert noFetch false 100 danglingSchema).map
        (fun st => (st.errors, st.rules.lookup "string-s", st.rules.lookup "string")) =
      some ([], some "string", none) ∧
    jsonSchemaToGrammar 100 danglingSchema =
      some (.ok ("root ::= \"\x7b\" space  (x-kv )? \"\x7d\" space\nspace ::= \" \"?\nstring- ::= \"\x7b\" space  (string-s-kv )? \"\x7d\" space\nstring-s ::= string\nstring-s-kv ::= \"\\\"s\\\"\" space \":\" space string-s\nx ::= string-\nx-kv ::= \"\\\"x\\\"\" space \":\" space x\n")) :=
  ⟨by rfl, by rfl⟩

set_option maxRecDepth 4000 in
/-- C5: when a `$ref` targets a URI already in the in-progress set,
`_resolve_ref` emits only the trailing rule name and neither recurses nor
changes the converter state; on the specification's cyclic schema the
conversion terminates without error and the produced rules form the
self-referencing cycle `A → A-next-kv → A-next → A`. -/
theorem claim_C5 :
    (∀ (dotall : Bool) (fuel : Nat) (st : ConvState) (ref : String),
      st.refsBeingResolved.contains ref = true →
      resolveRef dotall (fuel + 1) ref st = some (trailingName ref, st)) ∧
    (convert noFetch false 100 cyclicSchema).map
        (fun st => (st.errors, st.rules.lookup "A-next", st.rules.lookup "A")) =
      some ([], some "A", some "\"\x7b\" space  (A-next-kv )? \"\x7d\" space") := by
  constructor
  · intro dotall fuel st ref h
    have hmem : ref ∈ st.refsBeingResolved := by simpa using h
    simp [resolveRef, step, hmem]
  · rfl

theorem claim_C5_witness :
    resolveRef false 5 "input#/$defs/A"
        { initState with refsBeingResolved := ["input#/$defs/A"] } =
      some ("A", { initState with refsBeingResolved := ["input#/$defs/A"] }) := by
  have h := claim_C5.1 false 4
    { initState with refsBeingResolved := ["input#/$defs/A"] } "input#/$defs/A" (by rfl)
  simpa using h

/-- C6: `_add_rule` never replaces an entry with a different right-hand
side — a second call with the same `(name, rhs)` pair returns the same
final name and leaves the state unchanged; and a call whose sanitized
name is already bound to a different right-hand side installs the rule
under the name extended with the smallest integer suffix whose slot is
absent or already maps to that right-hand side. -/
theorem claim_C6 :
    (∀ (st : ConvState) (nm rhs : String),
      (st.addRule nm rhs).2.addRule nm rhs = st.addRule nm rhs) ∧
    (∀ (st : ConvState) (nm rhs v : String),
      st.rules.lookup (sanitizeName nm) = some v → v ≠ rhs →
      ∃ i, (st.addRule nm rhs).1 = sanitizeName nm ++ natToString i ∧
        suffixFree st (sanitizeName nm) rhs i = true ∧
        (∀ j < i, suffixFree st (sanitizeName nm) rhs j = false) ∧
        (st.addRule nm rhs).2.rules.lookup (sanitizeName nm ++ natToString i) = some rhs) :=
  ⟨addRule_idem, addRule_collision⟩

theorem claim_C6_witness :
    (initState.addRule "space" "X").2.addRule "space" "X" = initState.addRule "space" "X" ∧
    (initState.addRule "space" "X").1 = "space0" ∧
    (initState.addRule "space" "X").2.rules.entries = [("space", "\" \"?"), ("space0", "X")] := by
  rcases claim_C6.2 initState "space" "X" SPACE_RULE (by rfl) (by decide) with
    ⟨i, h1, hfree, hleast, hlook⟩
  have hi : i = 0 := by
    by_contra hne
    have h0 := hleast 0 (Nat.pos_of_ne_zero hne)
    rw [show suffixFree initState (sanitizeName "space") "X" 0 = true from by decide] at h0
    exact Bool.noConfusion h0
  subst hi
  exact ⟨claim_C6.1 initState "space" "X", h1.trans (by rfl), by rfl⟩

/-- C9: the compiler is deterministic — with the same schema, `dotall`
flag, fuel and an extensionally equal fetcher, two runs of the full
pipeline produce identical results. -/
theorem claim_C9 (fetch1 fetch2 : String → JVal) (dotall : Bool) (fuel : Nat) (schema : JVal)
    (h : ∀ u, fetch1 u = fetch2 u) :
    compileWith fetch1 dotall fuel schema = compileWith fetch2 dotall fuel schema := by
  rw [funext h]

theorem claim_C9_witness :
    compileWith noFetch false 100 emptySchema = compileWith noFetchB false 100 emptySchema :=
  claim_C9 noFetch noFetchB false 100 emptySchema (fun u => by simp [noFetch, noFetchB])

/-- An unanchored `pattern` makes the whole pipeline fail with exactly the
anchoring error, whatever the fetcher, `dotall` flag and (sufficient)
fuel. -/
theorem unanchored_pattern_fails (p : String)
    (h : ¬ (strFront p = some '^' ∧ strBack p = some '$')) :
    ∀ (fetch : String → JVal) (dotall : Bool) (fuel : Nat),
    compileWith fetch dotall (fuel + 4) (strPatSchema p) =
      some (.error ("JSON schema conversion failed:\nPattern must start with \x27^\x27 and end with \x27$\x27")) := by
  intro fetch dotall fuel
  have hdec : decide (strFront p = some '^' ∧ strBack p = some '$') = false := decide_eq_false h
  have hres : resolveRefs fetch (fuel + 4) (strPatSchema p) "input" initState =
      some (strPatSchema p, initState) := by
    simp [resolveRefs, visitRefsLoop, getAt, lookupA, strPatSchema]
  have hvisit : visit dotall (fuel + 4) (strPatSchema p) "" initState =
      some ("", initState.addError "Pattern must start with \x27^\x27 and end with \x27$\x27") := by
    simp [visit, step, strPatSchema, JVal.contains, JVal.get, lookupA, typeNullOr, JVal.isStr,
      JVal.isEmptyJ, isReservedName, PRIMITIVE_RULES, STRING_FORMAT_RULES, JVal.asString,
      visitPattern, hdec]
  simp only [compileWith, convert, hres, hvisit]
  simp [checkErrors, ConvState.addError, initState, joinSep, Except.map]

/-- C7: after the conversion pipeline, if at least one error was
accumulated the compiler produces exactly one aggregated failure whose
message joins every accumulated message with newlines, and no grammar
text is returned; if no error was accumulated, no failure is raised and
the serialized grammar is returned. -/
theorem claim_C7 (fetch : String → JVal) (dotall : Bool) (fuel : Nat) (schema : JVal)
    (es : List String) (h : convErrors fetch dotall fuel schema = some es) :
    (es ≠ [] →
      compileWith fetch dotall fuel schema =
        some (.error ("JSON schema conversion failed:\n" ++ joinSep es "\n")) ∧
      ∀ g, compileWith fetch dotall fuel schema ≠ some (.ok g)) ∧
    (es = [] → ∃ g, compileWith fetch dotall fuel schema = some (.ok g)) := by
  cases hc : convert fetch dotall fuel schema with
  | none => rw [convErrors, hc] at h; simp at h
  | some st =>
    rw [convErrors, hc] at h
    simp only [Option.map_some', Option.some.injEq] at h
    subst h
    constructor
    · intro hne
      have hemp : st.errors.isEmpty = false := by
        cases hx : st.errors with
        | nil => exact absurd hx hne
        | cons a as => rfl
      constructor
      · simp [compileWith, hc, checkErrors, hemp, List.isEmpty_iff, Except.map,
          show st.errors ≠ [] from hne]
      · intro g
        simp [compileWith, hc, checkErrors, List.isEmpty_iff, Except.map,
          show st.errors ≠ [] from hne]
    · intro hnil
      refine ⟨formatGrammar st.rules, ?_⟩
      simp [compileWith, hc, checkErrors, hnil, Except.map]

theorem claim_C7_witness :
    compileWith noFetch false 20 (strPatSchema "abc") =
      some (.error ("JSON schema conversion failed:\nPattern must start with \x27^\x27 and end with \x27$\x27")) :=
  ((claim_C7 noFetch false 20 (strPatSchema "abc")
      ["Pattern must start with \x27^\x27 and end with \x27$\x27"] (by rfl)).1
    (by decide)).1

/-- C8: whenever a pattern does not both start with a caret and end with
a dollar sign, `_visit_pattern` records exactly the error message
`Pattern must start with ... and end with ...`, produces no rule (the
state changes only by that appended error), and compiling a string schema
carrying that pattern fails with that single aggregated error. -/
theorem claim_C8 (p : String)
    (h : ¬ (strFront p = some '^' ∧ strBack p = some '$')) :
    (∀ (dotall : Bool) (nm : String) (st : ConvState),
      visitPattern dotall p nm st =
        some ("", st.addError "Pattern must start with \x27^\x27 and end with \x27$\x27")) ∧
    (∀ (fetch : String → JVal) (dotall : Bool) (fuel : Nat),
      compileWith fetch dotall (fuel + 4) (strPatSchema p) =
        some (.error ("JSON schema conversion failed:\nPattern must start with \x27^\x27 and end with \x27$\x27"))) := by
  constructor
  · intro dotall nm st
    simp [visitPattern, decide_eq_false h]
  · exact unanchored_pattern_fails p h

theorem claim_C8_witness :
    visitPattern false "abc" "root" initState =
      some ("", initState.addError "Pattern must start with \x27^\x27 and end with \x27$\x27") ∧
    compileWith noFetch false 16 (strPatSchema "abc") =
      some (.error ("JSON schema conversion failed:\nPattern must start with \x27^\x27 and end with \x27$\x27")) :=
  ⟨(claim_C8 "abc" (by decide)).1 false "root" initState,
   (claim_C8 "abc" (by decide)).2 noFetch false 12⟩

/-- C10: on the empty pattern the anchoring check's accesses
`pattern.front()` and `pattern.back()` are out of range — in the total
embedding both return `none` — hence the check cannot succeed: the
unanchored-pattern error branch is taken, the error is recorded and no
rule is emitted (the state changes only by the appended error); the whole
pipeline on a string schema with the empty pattern accordingly fails. -/
theorem claim_C10 (dotall : Bool) (nm : String) (st : ConvState) :
    strFront "" = none ∧ strBack "" = none ∧
    visitPattern dotall "" nm st =
      some ("", st.addError "Pattern must start with \x27^\x27 and end with \x27$\x27") ∧
    (∀ (fetch : String → JVal) (fuel : Nat),
      compileWith fetch dotall (fuel + 4) (strPatSchema "") =
        some (.error ("JSON schema conversion failed:\nPattern must start with \x27^\x27 and end with \x27$\x27"))) := by
  refine ⟨rfl, rfl, ?_, ?_⟩
  · simp [visitPattern, strFront, strBack]
  · intro fetch fuel
    exact unanchored_pattern_fails "" (by decide) fetch dotall fuel
